import Mathlib

/-!
# Key manager of openstack-iid-dynamic-json

A shallow embedding of `pkg/keymanager/keymanager.go`: the two-slot key ring, key
generation, the load-or-bootstrap `Initialize`, the readers `GetPublicKeys` and
`GetPrivateKey`, the two rotation predicates and one iteration of the `rotateKeys`
loop, followed by the properties of the ring that the specification states.

Modelling conventions.

* A `time.Time` is an instant on one time axis, counted in nanoseconds from Go's zero
  `Time` (January 1 of year 1, UTC), so the zero value of a `time.Time` is `0`.  Wall and
  monotonic clock readings are taken to agree.  Instants decoded from JSON lie in the years
  0000 to 9999 and readings of the clock lie in the present, so `Time.Add` with a 64-bit
  duration never leaves the range of `time.Time` and is exact.
* A `time.Duration` is a signed 64-bit number of nanoseconds.  `Time.Sub` saturates,
  negation wraps and division truncates toward zero, as in Go.
* The Go map `KeyPairs` is a finite map with distinct keys; `none` is the nil map, which
  reads as empty and panics on assignment.
* Instants, durations and the `KeyType` enumeration (an `int32`) are all values of `Int`.
* Everything the environment decides (readings of the clock, the random key generator,
  the outcome of a file write, the decoded content of the key file) is an explicit
  argument.
-/

namespace KeyManager

/-! ## Data model -/

abbrev Bytes := List UInt8

def UNSPECIFIED_KEY_TYPE : Int := 0
def EC_P256 : Int := 1
def EC_P384 : Int := 2
def RSA_2048 : Int := 4
def RSA_4096 : Int := 5

def KeyAKey : String := "Key-A"
def KeyBKey : String := "Key-B"

structure KeyPair where
  ID : String
  PrivateKeyDER : Bytes
  PublicKeyDER : Bytes
  IssueAt : Int
  ExpireAt : Int
deriving DecidableEq, Repr

/-- The Go zero value of `KeyPair`, which reading a missing map entry yields. -/
def zeroKeyPair : KeyPair := ⟨"", [], [], 0, 0⟩

/-- A `map[string]KeyPair` that is not nil. -/
abbrev KeyPairMap := AList (fun _ : String => KeyPair)

/-- The fields of `DiskKeyManager` other than the mutex; `KeyPairs = none` is the nil map. -/
structure DiskKeyManager where
  Typ : Int
  Path : String
  RotationPeriod : Int
  Interval : Int
  KeyPairs : Option KeyPairMap
  current : String
  next : String

def NewDiskKeyManager (t : Int) (p : String) (rp iv : Int) : DiskKeyManager :=
  ⟨t, p, rp, iv, none, "", ""⟩

/-- The slot lookup `d.KeyPairs[k]` when `k` is populated. -/
def slot (d : DiskKeyManager) (k : String) : Option KeyPair :=
  match d.KeyPairs with
  | none => none
  | some m => m.lookup k

/-- The Go expression `d.KeyPairs[k]`: the stored pair, or the zero value. -/
def getKeyPair (d : DiskKeyManager) (k : String) : KeyPair :=
  (slot d k).getD zeroKeyPair

/-- The key pairs stored in the map, in the map's enumeration order. -/
def ringValues (d : DiskKeyManager) : List KeyPair :=
  match d.KeyPairs with
  | none => []
  | some m => m.entries.map (fun e => e.2)

/-! ## Time arithmetic of the Go standard library -/

def minDuration : Int := -(2 ^ 63)
def maxDuration : Int := 2 ^ 63 - 1

/-- Two's complement wrap-around of a 64-bit signed integer. -/
def wrapInt64 (x : Int) : Int := (x + 2 ^ 63) % 2 ^ 64 - 2 ^ 63

/-- The method `t.Sub(u)`: the difference, saturated to the range of `Duration`. -/
def timeSub (t u : Int) : Int :=
  if t - u < minDuration then minDuration
  else if maxDuration < t - u then maxDuration
  else t - u

/-- The method `t.Add(d)`. -/
def timeAdd (t : Int) (d : Int) : Int := t + d

/-- The method `t.Before(u)`. -/
def timeBefore (t u : Int) : Bool := decide (t < u)

/-- The method `t.After(u)`. -/
def timeAfter (t u : Int) : Bool := decide (u < t)

/-- Unary minus on a `Duration`. -/
def durationNeg (d : Int) : Int := wrapInt64 (-d)

/-- Division of a `Duration` by an integer constant. -/
def durationDiv (d : Int) (k : Int) : Int := Int.tdiv d k

/-! ## Cryptographic library boundary -/

/-- A decoded `crypto.PublicKey` or `crypto.PrivateKey`, kept as the bytes that stand for it. -/
structure CryptoKey where
  material : Bytes
deriving DecidableEq, Repr

/-- The library functions whose results the key manager only passes on. -/
structure Lib where
  ripemd160Hex : Bytes → String
  ParsePKIXPublicKey : Bytes → Except String CryptoKey
  ParseECPrivateKey : Bytes → Except String CryptoKey
  ParsePKCS1PrivateKey : Bytes → Except String CryptoKey

/-- A freshly generated private key, given by the two encodings the library has for it. -/
structure RawKey where
  privDER : Bytes
  pubDER : Bytes
deriving DecidableEq, Repr

/-- The dynamic type of the argument handed to `x509.MarshalPKIXPublicKey`. -/
inductive PublicKeyArg where
  | ecdsaPtr (k : RawKey)
  | rsaPtr (k : RawKey)
  | rsaValue (k : RawKey)
deriving DecidableEq, Repr

/-- The function `x509.MarshalPKIXPublicKey`: its type switch has cases for `*rsa.PublicKey` and
`*ecdsa.PublicKey`; an `rsa.PublicKey` passed by value falls to the default case, which
returns an error (the wording of the message depends on the Go release). -/
def MarshalPKIXPublicKey : PublicKeyArg → Except String Bytes
  | .ecdsaPtr k => .ok k.pubDER
  | .rsaPtr k => .ok k.pubDER
  | .rsaValue _ => .error "x509: unsupported public key type: rsa.PublicKey"

/-- The function `x509.MarshalECPrivateKey` on a key over P-256 or P-384. -/
def MarshalECPrivateKey (k : RawKey) : Except String Bytes := .ok k.privDER

/-- The function `x509.MarshalPKCS1PrivateKey`, which has no error result. -/
def MarshalPKCS1PrivateKey (k : RawKey) : Bytes := k.privDER

/-- What one call of `GenerateKey` gets from outside: the clock reading and the result of
`ecdsa.GenerateKey` or `rsa.GenerateKey` on the system random source. -/
structure KeyGenEnv where
  now : Int
  generated : Except String RawKey

/-! ## GenerateKey -/

/-- The tail of `GenerateKey` after the switch: digest of the public key and timestamps. -/
def finishKeyPair (lib : Lib) (d : DiskKeyManager) (now : Int) (privData pubData : Bytes) :
    KeyPair :=
  { ID := lib.ripemd160Hex pubData
    PrivateKeyDER := privData
    PublicKeyDER := pubData
    IssueAt := now
    ExpireAt := timeAdd now d.RotationPeriod }

def GenerateKey (lib : Lib) (d : DiskKeyManager) (env : KeyGenEnv) : Except String KeyPair :=
  let now := env.now
  if d.Typ = EC_P256 ∨ d.Typ = EC_P384 then
    match env.generated with
    | .error e => .error e
    | .ok privateKey =>
      match MarshalECPrivateKey privateKey with
      | .error e => .error e
      | .ok privData =>
        match MarshalPKIXPublicKey (.ecdsaPtr privateKey) with
        | .error e => .error e
        | .ok pubData => .ok (finishKeyPair lib d now privData pubData)
  else if d.Typ = RSA_2048 ∨ d.Typ = RSA_4096 then
    match env.generated with
    | .error e => .error e
    | .ok privateKey =>
      let privData := MarshalPKCS1PrivateKey privateKey
      match MarshalPKIXPublicKey (.rsaValue privateKey) with
      | .error e => .error e
      | .ok pubData => .ok (finishKeyPair lib d now privData pubData)
  else
    .error "KeyType must be specified"

/-! ## Persistence -/

/-- What `Initialize` finds at `d.Path`. -/
inductive FileState where
  | missing
  | unreadable
  | malformed
  | ring (data : Option KeyPairMap)

/-- The world the key manager acts on: its fields and the file at `d.Path`. -/
structure World where
  d : DiskKeyManager
  file : FileState

/-- The outcome of the marshal-and-write of one `WriteEntry` call; after a failure the file
is whatever the failed write left behind. -/
inductive WriteOutcome where
  | ok
  | failed (left : FileState)

/-- The method `WriteEntry`: whether it returned nil, and the file afterwards. -/
def WriteEntry (w : World) : WriteOutcome → Bool × World
  | .ok => (true, { w with file := .ring w.d.KeyPairs })
  | .failed left => (false, { w with file := left })

/-! ## Readers -/

abbrev PublicKeyMap := AList (fun _ : String => CryptoKey)

/-- The loop of `GetPublicKeys` over the pairs in the order the map iteration visits them. -/
def GetPublicKeysLoop (lib : Lib) : List KeyPair → PublicKeyMap → Except String PublicKeyMap
  | [], pubKeys => .ok pubKeys
  | kp :: rest, pubKeys =>
    match lib.ParsePKIXPublicKey kp.PublicKeyDER with
    | .error e => .error e
    | .ok pub => GetPublicKeysLoop lib rest (pubKeys.insert kp.ID pub)

/-- The method `GetPublicKeys`.  Go leaves the order of a map iteration open: `order` is the
rearrangement of the stored pairs in which this call's `range` loop visits them. -/
def GetPublicKeys (lib : Lib) (d : DiskKeyManager) (order : List KeyPair → List KeyPair) :
    Except String PublicKeyMap :=
  GetPublicKeysLoop lib (order (ringValues d)) ∅

/-- The method `GetPrivateKey`: the returned id, and the key or the error. -/
def GetPrivateKey (lib : Lib) (d : DiskKeyManager) : String × Except String CryptoKey :=
  let curKP := getKeyPair d d.current
  let curID := curKP.ID
  let curPrivKey := curKP.PrivateKeyDER
  if d.Typ = EC_P256 ∨ d.Typ = EC_P384 then
    (curID, lib.ParseECPrivateKey curPrivKey)
  else if d.Typ = RSA_2048 ∨ d.Typ = RSA_4096 then
    (curID, lib.ParsePKCS1PrivateKey curPrivKey)
  else
    ("", .error "unknown key type")

/-! ## Rotation predicates -/

def shouldPrepareNewKey (d : DiskKeyManager) (now : Int) : Bool :=
  let cur := getKeyPair d d.current
  let next := getKeyPair d d.next
  let lifetime := timeSub cur.ExpireAt cur.IssueAt
  timeAfter now (timeAdd cur.ExpireAt (durationDiv (durationNeg lifetime) 2))
    && !timeBefore cur.IssueAt next.IssueAt

def shouldRotateKey (d : DiskKeyManager) (now : Int) : Bool :=
  let cur := getKeyPair d d.current
  let lifetime := timeSub cur.ExpireAt cur.IssueAt
  timeAfter now (timeAdd cur.ExpireAt (durationDiv (durationNeg lifetime) 6))

/-! ## Initialize -/

/-- What one call of `Initialize` gets from outside on the bootstrap path. -/
structure InitEnv where
  keygen : KeyGenEnv
  write : WriteOutcome

/-- The result of `Initialize`: the returned error, if any, and the world it leaves.  When
`err = none` the rotation loop has been started. -/
structure InitResult where
  err : Option String
  w : World

/-- The comparison at the end of the load path of `Initialize`. -/
def loadDesignators (d : DiskKeyManager) : DiskKeyManager :=
  if timeBefore (getKeyPair d KeyAKey).IssueAt (getKeyPair d KeyBKey).IssueAt then
    { d with current := KeyBKey, next := KeyAKey }
  else
    { d with current := KeyAKey, next := KeyBKey }

def Initialize (lib : Lib) (w : World) (env : InitEnv) : InitResult :=
  match w.file with
  | .missing =>
    match GenerateKey lib w.d env.keygen with
    | .error e => ⟨some e, w⟩
    | .ok kp =>
      let d1 : DiskKeyManager :=
        { w.d with
          KeyPairs := some (AList.insert KeyAKey kp ∅)
          current := KeyAKey
          next := KeyBKey }
      let r := WriteEntry { w with d := d1 } env.write
      if r.1 then ⟨none, r.2⟩ else ⟨some "write failed", r.2⟩
  | .unreadable => ⟨some "read failed", w⟩
  | .malformed => ⟨some "unmarshal failed", w⟩
  | .ring data => ⟨none, { w with d := loadDesignators { w.d with KeyPairs := data } }⟩

/-! ## One iteration of the rotateKeys loop -/

/-- What one iteration of the loop gets from outside, in program order: the clock reading of
`shouldPrepareNewKey`, the inputs of `GenerateKey`, the outcome of the first `WriteEntry`, the
clock reading of `shouldRotateKey` and the outcome of the second `WriteEntry`. -/
structure TickEnv where
  nowPrepare : Int
  keygen : KeyGenEnv
  writePrepare : WriteOutcome
  nowRotate : Int
  writeRotate : WriteOutcome

/-- The environment of an iteration all of whose clock readings are `now`. -/
def tickAt (now : Int) (generated : Except String RawKey) (w1 w2 : WriteOutcome) : TickEnv :=
  ⟨now, ⟨now, generated⟩, w1, now, w2⟩

/-- How the first `if` of the loop body ends. -/
inductive PrepareOutcome where
  | skipped
  | generateFailed
  | nilMapPanic
  | stored (w1 : World)

/-- The block guarded by `shouldPrepareNewKey`. -/
def prepareStep (lib : Lib) (w : World) (env : TickEnv) : PrepareOutcome :=
  if shouldPrepareNewKey w.d env.nowPrepare then
    match GenerateKey lib w.d env.keygen with
    | .error _ => .generateFailed
    | .ok newKey =>
      match w.d.KeyPairs with
      | none => .nilMapPanic
      | some m =>
        let d1 : DiskKeyManager := { w.d with KeyPairs := some (m.insert w.d.next newKey) }
        .stored (WriteEntry { w with d := d1 } env.writePrepare).2
  else
    .skipped

/-- The block guarded by `shouldRotateKey`. -/
def rotateStep (w : World) (curKeyName : String) (env : TickEnv) : World :=
  if shouldRotateKey w.d env.nowRotate then
    let d1 : DiskKeyManager := { w.d with current := w.d.next, next := curKeyName }
    (WriteEntry { w with d := d1 } env.writeRotate).2
  else
    w

/-- One iteration of the `for` loop of `rotateKeys`; `none` when the goroutine panics. -/
def rotateTick (lib : Lib) (w : World) (env : TickEnv) : Option World :=
  let curKeyName := w.d.current
  match prepareStep lib w env with
  | .skipped => some (rotateStep w curKeyName env)
  | .generateFailed => some w
  | .nilMapPanic => none
  | .stored w1 => some (rotateStep w1 curKeyName env)

/-! ## Reachable states -/

/-- The worlds a process can be in after `Initialize` returned nil, at the end of any number
of loop iterations, whatever the environment did. -/
inductive Reachable (lib : Lib) : World → Prop where
  | init (t : Int) (p : String) (rp iv : Int) (file : FileState) (env : InitEnv) :
      (Initialize lib ⟨NewDiskKeyManager t p rp iv, file⟩ env).err = none →
      Reachable lib (Initialize lib ⟨NewDiskKeyManager t p rp iv, file⟩ env).w
  | tick (w w1 : World) (env : TickEnv) :
      Reachable lib w → rotateTick lib w env = some w1 → Reachable lib w1

/-- The worlds reachable from a first-run bootstrap (no file at `d.Path`) by iterations of
the loop, whatever the clock, the key generator and the writes did. -/
inductive BootStarted (lib : Lib) : World → Prop where
  | boot (t : Int) (p : String) (rp iv : Int) (env : InitEnv) :
      (Initialize lib ⟨NewDiskKeyManager t p rp iv, .missing⟩ env).err = none →
      BootStarted lib (Initialize lib ⟨NewDiskKeyManager t p rp iv, .missing⟩ env).w
  | tick (w w1 : World) (env : TickEnv) :
      BootStarted lib w → rotateTick lib w env = some w1 → BootStarted lib w1

/-- The clock readings of one iteration are close: `GenerateKey` reads the clock no earlier
than `shouldPrepareNewKey` did, and `shouldRotateKey` reads it at most
`RotationPeriod/2 - RotationPeriod/6` after `shouldPrepareNewKey` did. -/
def ReadingsClose (d : DiskKeyManager) (env : TickEnv) : Prop :=
  env.nowPrepare ≤ env.keygen.now ∧
    env.nowRotate ≤
      env.nowPrepare + (Int.tdiv d.RotationPeriod 2 - Int.tdiv d.RotationPeriod 6)

instance (d : DiskKeyManager) (env : TickEnv) : Decidable (ReadingsClose d env) := by
  unfold ReadingsClose; infer_instance

/-- The worlds reachable from a first-run bootstrap (no file at `d.Path`) with a positive
rotation period and a clock that is not before Go's zero `Time`, by iterations of the loop
whose clock readings are close. -/
inductive BootReachable (lib : Lib) : World → Prop where
  | boot (t : Int) (p : String) (rp iv : Int) (env : InitEnv) :
      0 < rp → rp ≤ maxDuration → 0 ≤ env.keygen.now →
      (Initialize lib ⟨NewDiskKeyManager t p rp iv, .missing⟩ env).err = none →
      BootReachable lib (Initialize lib ⟨NewDiskKeyManager t p rp iv, .missing⟩ env).w
  | tick (w w1 : World) (env : TickEnv) :
      BootReachable lib w → ReadingsClose w.d env → rotateTick lib w env = some w1 →
      BootReachable lib w1

/-! ## The rotation predicates in the words of the specification -/

/-- The specification's `shouldPrepareNext`, with `lifetime = expiresAt - issuedAt`. -/
def specShouldPrepareNext (cur next : KeyPair) (now : Int) : Prop :=
  now > cur.ExpireAt - Int.tdiv (cur.ExpireAt - cur.IssueAt) 2 ∧ cur.IssueAt ≥ next.IssueAt

/-- The specification's `shouldRotate`. -/
def specShouldRotate (cur : KeyPair) (now : Int) : Prop :=
  now > cur.ExpireAt - Int.tdiv (cur.ExpireAt - cur.IssueAt) 6

instance (cur next : KeyPair) (now : Int) : Decidable (specShouldPrepareNext cur next now) := by
  unfold specShouldPrepareNext; infer_instance

instance (cur : KeyPair) (now : Int) : Decidable (specShouldRotate cur now) := by
  unfold specShouldRotate; infer_instance

/-- The designators are the two slot names, one each. -/
def SlotsExclusive (d : DiskKeyManager) : Prop :=
  (d.current = KeyAKey ∧ d.next = KeyBKey) ∨ (d.current = KeyBKey ∧ d.next = KeyAKey)

/-- The lifetime of the pair fits a `Duration` with its negation. -/
def LifetimeRepresentable (kp : KeyPair) : Prop :=
  -maxDuration ≤ kp.ExpireAt - kp.IssueAt ∧ kp.ExpireAt - kp.IssueAt ≤ maxDuration

instance (kp : KeyPair) : Decidable (LifetimeRepresentable kp) := by
  unfold LifetimeRepresentable; infer_instance

/-- The pair is an output of `GenerateKey` of this manager, at a clock reading that is not
before the zero time. -/
def Issued (lib : Lib) (d : DiskKeyManager) (kp : KeyPair) : Prop :=
  0 ≤ kp.IssueAt ∧ ∃ env, GenerateKey lib d env = .ok kp

/-- What holds of the manager in every world reachable from a bootstrap. -/
structure BootInv (lib : Lib) (d : DiskKeyManager) : Prop where
  excl : SlotsExclusive d
  rp_pos : 0 < d.RotationPeriod
  rp_le : d.RotationPeriod ≤ maxDuration
  typ : d.Typ = EC_P256 ∨ d.Typ = EC_P384
  keys : ∃ m, d.KeyPairs = some m ∧ ∀ k, k ∈ m → k = KeyAKey ∨ k = KeyBKey
  slotA : ∃ ka, slot d KeyAKey = some ka
  cur : ∃ kc, slot d d.current = some kc ∧ Issued lib d kc
  nxt : ∀ kn, slot d d.next = some kn →
    Issued lib d kn ∧ kn.IssueAt ≠ (getKeyPair d d.current).IssueAt

/-- A restart: a new process runs `Initialize` on a fresh manager `d0` and finds the file the
old process left. -/
def restart (lib : Lib) (d0 : DiskKeyManager) (env : InitEnv) (file : FileState) : InitResult :=
  Initialize lib ⟨d0, file⟩ env

/-! ## Accesses to the ring and to the mutex, in program order -/

/-- One step of a method on the shared manager: an operation on `d.mu`, or a statement that
reads or assigns `d.KeyPairs`, `d.current` or `d.next`. -/
inductive Access where
  | lock
  | unlock
  | rlock
  | runlock
  | readRing
  | writeRing
deriving DecidableEq, Repr

/-- The method `WriteEntry`: `d.mu.Lock()`, the marshalling of `d.KeyPairs`, and the deferred
`d.mu.Unlock()`. -/
def WriteEntryAccesses : List Access := [.lock, .readRing, .unlock]

/-- The method `GetPrivateKey`: the read of `d.KeyPairs[d.current]`. -/
def GetPrivateKeyAccesses : List Access := [.readRing]

/-- The loop body of `GetPublicKeys`: the read `d.KeyPairs[i]` for each visited entry, up to
the first public key that does not decode. -/
def GetPublicKeysLoopAccesses (lib : Lib) : List KeyPair → List Access
  | [] => []
  | kp :: rest =>
    .readRing ::
      (match lib.ParsePKIXPublicKey kp.PublicKeyDER with
        | .error _ => []
        | .ok _ => GetPublicKeysLoopAccesses lib rest)

/-- The method `GetPublicKeys`: the `range` over `d.KeyPairs`, then the loop body. -/
def GetPublicKeysAccesses (lib : Lib) (visit : List KeyPair) : List Access :=
  .readRing :: GetPublicKeysLoopAccesses lib visit

/-- One iteration of the loop of `rotateKeys`: the read of `d.current`, the reads of
`shouldPrepareNewKey`, the assignment `d.KeyPairs[d.next] = *newKey` followed by `WriteEntry`,
the read of `shouldRotateKey`, and the two assignments to the designators followed by
`WriteEntry`. -/
def rotateTickAccesses (lib : Lib) (w : World) (env : TickEnv) : List Access :=
  let rotatePart (w1 : World) : List Access :=
    .readRing ::
      (if shouldRotateKey w1.d env.nowRotate then
        [.writeRing, .writeRing] ++ WriteEntryAccesses
      else [])
  [.readRing, .readRing, .readRing] ++
    (match prepareStep lib w env with
      | .skipped => rotatePart w
      | .generateFailed => []
      | .nilMapPanic => [.writeRing]
      | .stored w1 => [.writeRing] ++ WriteEntryAccesses ++ rotatePart w1)

/-- Which sides of `d.mu` the running method holds. -/
structure Held where
  write : Bool
  read : Bool

/-- Every read of the ring happens while the read side of the mutex is held. -/
def readsUnderReadLock : Held → List Access → Bool
  | _, [] => true
  | h, .lock :: rest => readsUnderReadLock { h with write := true } rest
  | h, .unlock :: rest => readsUnderReadLock { h with write := false } rest
  | h, .rlock :: rest => readsUnderReadLock { h with read := true } rest
  | h, .runlock :: rest => readsUnderReadLock { h with read := false } rest
  | h, .readRing :: rest => h.read && readsUnderReadLock h rest
  | h, .writeRing :: rest => readsUnderReadLock h rest

/-- Every assignment to the ring happens while the write side of the mutex is held. -/
def writesUnderWriteLock : Held → List Access → Bool
  | _, [] => true
  | h, .lock :: rest => writesUnderWriteLock { h with write := true } rest
  | h, .unlock :: rest => writesUnderWriteLock { h with write := false } rest
  | h, .rlock :: rest => writesUnderWriteLock { h with read := true } rest
  | h, .runlock :: rest => writesUnderWriteLock { h with read := false } rest
  | h, .readRing :: rest => writesUnderWriteLock h rest
  | h, .writeRing :: rest => h.write && writesUnderWriteLock h rest

/-! ## Concrete data on which the theorems are exercised -/

def sampleLib : Lib :=
  { ripemd160Hex := fun b => String.join (b.map (fun x => toString x.toNat))
    ParsePKIXPublicKey := fun b => if b = [] then .error "asn1: syntax error" else .ok ⟨b⟩
    ParseECPrivateKey := fun b => if b = [] then .error "asn1: syntax error" else .ok ⟨b⟩
    ParsePKCS1PrivateKey := fun b => if b = [] then .error "asn1: syntax error" else .ok ⟨b⟩ }

def rawKey0 : RawKey := ⟨[1], [2]⟩
def rawKey1 : RawKey := ⟨[3], [4]⟩

/-- A fresh manager with key type EC_P384, a rotation period of 6 s and an interval of 5 s,
and no key file. -/
def freshWorld : World :=
  ⟨NewDiskKeyManager EC_P384 "keys.json" 6000000000 5000000000, .missing⟩

/-- The bootstrap of `freshWorld` at instant 1000 s. -/
def bootEnv : InitEnv := ⟨⟨1000000000000, .ok rawKey0⟩, .ok⟩

def bootWorld : World := (Initialize sampleLib freshWorld bootEnv).w

/-- The sample ring after an iteration 3.000000001 s after the bootstrap, which prepares
slot B. -/
def preparedWorld : World :=
  (rotateTick sampleLib bootWorld (tickAt 1003000000001 (.ok rawKey1) .ok .ok)).getD bootWorld

/-- The sample ring after a further iteration 5.000000001 s after the bootstrap, which
exchanges the designators. -/
def rotatedWorld : World :=
  (rotateTick sampleLib preparedWorld (tickAt 1005000000001 (.error "entropy") .ok .ok)).getD
    preparedWorld

/-- An iteration that reads the clock 1 s after the sample bootstrap in
`shouldPrepareNewKey` and 5.5 s after it in `shouldRotateKey`. -/
def splitEnv : TickEnv := ⟨1001000000000, ⟨1002000000000, .ok rawKey1⟩, .ok, 1005500000000, .ok⟩

/-- The sample ring after the iteration `splitEnv`, run right after the bootstrap. -/
def splitWorld : World := (rotateTick sampleLib bootWorld splitEnv).getD bootWorld

/-- The pair `GenerateKey` makes of `rawKey1` at 5.000000001 s after the sample bootstrap. -/
def lateKey : KeyPair := ⟨"4", [3], [4], 1005000000001, 1011000000001⟩

/-- A pair as a key file can hold it, issued 2^63 ns after it expires. -/
def backwardKey : KeyPair :=
  ⟨"a", [1], [2], 64000000000000000000 + 9223372036854775808, 64000000000000000000⟩

/-- A pair issued one nanosecond after `backwardKey`. -/
def laterKey : KeyPair :=
  ⟨"b", [3], [4], 64000000000000000000 + 9223372036854775809, 64000000000000000001⟩

/-- A manager whose current slot holds `backwardKey` and whose next slot is empty. -/
def backwardManager : DiskKeyManager :=
  ⟨EC_P384, "keys.json", 6000000000, 5000000000,
    some (AList.insert KeyAKey backwardKey ∅), KeyAKey, KeyBKey⟩

/-- A manager whose current slot holds `backwardKey` and whose next slot holds `laterKey`. -/
def backwardPreparedManager : DiskKeyManager :=
  ⟨EC_P384, "keys.json", 6000000000, 5000000000,
    some (AList.insert KeyBKey laterKey (AList.insert KeyAKey backwardKey ∅)), KeyAKey, KeyBKey⟩

/-- A pair issued one second before Go's zero time, as a key file can hold it. -/
def ancientKey : KeyPair := ⟨"d", [7], [8], -1000000000, 5000000000⟩

/-- A key file with an entry for Key-A only, holding `ancientKey`. -/
def ancientFile : FileState := .ring (some (AList.insert KeyAKey ancientKey ∅))

/-- A pair of lifetime 3 ns issued at instant 1000 s. -/
def oddKey : KeyPair := ⟨"c", [5], [6], 1000000000000, 1000000000003⟩

/-- A manager with a rotation period of 3 ns whose current slot holds `oddKey`. -/
def oddManager : DiskKeyManager :=
  ⟨EC_P384, "keys.json", 3, 1, some (AList.insert KeyAKey oddKey ∅), KeyAKey, KeyBKey⟩

end KeyManager

namespace KeyManager

set_option maxRecDepth 8192

/-! ## Basic facts about the operations -/

theorem WriteEntry_d (w : World) (o : WriteOutcome) : (WriteEntry w o).2.d = w.d := by
  cases o <;> rfl

theorem rotateStep_d (w : World) (c : String) (env : TickEnv) :
    (rotateStep w c env).d =
      if shouldRotateKey w.d env.nowRotate = true then
        { w.d with current := w.d.next, next := c }
      else w.d := by
  unfold rotateStep
  split
  · simp [WriteEntry_d]
  · rfl

theorem rotateStep_KeyPairs (w : World) (c : String) (env : TickEnv) :
    (rotateStep w c env).d.KeyPairs = w.d.KeyPairs := by
  rw [rotateStep_d]
  split <;> rfl

theorem slot_rotateStep (w : World) (c : String) (env : TickEnv) (k : String) :
    slot (rotateStep w c env).d k = slot w.d k := by
  unfold slot
  rw [rotateStep_KeyPairs]

theorem prepareStep_stored {lib : Lib} {w w1 : World} {env : TickEnv}
    (h : prepareStep lib w env = .stored w1) :
    ∃ newKey m, shouldPrepareNewKey w.d env.nowPrepare = true ∧
      GenerateKey lib w.d env.keygen = .ok newKey ∧ w.d.KeyPairs = some m ∧
      w1.d = { w.d with KeyPairs := some (m.insert w.d.next newKey) } := by
  unfold prepareStep at h
  split at h
  · rename_i hp
    split at h
    · exact absurd h (by simp)
    · rename_i newKey hg
      split at h
      · exact absurd h (by simp)
      · rename_i m hm
        refine ⟨newKey, m, hp, hg, hm, ?_⟩
        injection h with h
        rw [← h, WriteEntry_d]
  · exact absurd h (by simp)

theorem prepareStep_skipped {lib : Lib} {w : World} {env : TickEnv}
    (h : prepareStep lib w env = .skipped) : shouldPrepareNewKey w.d env.nowPrepare = false := by
  unfold prepareStep at h
  split at h
  · split at h
    · exact absurd h (by simp)
    · split at h <;> exact absurd h (by simp)
  · rename_i hp
    simpa using hp

theorem slotsExclusive_swap {d : DiskKeyManager} (h : SlotsExclusive d) :
    SlotsExclusive { d with current := d.next, next := d.current } := by
  rcases h with ⟨h1, h2⟩ | ⟨h1, h2⟩
  · exact Or.inr ⟨h2, h1⟩
  · exact Or.inl ⟨h2, h1⟩

theorem slotsExclusive_rotateStep {w : World} {env : TickEnv} {d0 : DiskKeyManager}
    (h : SlotsExclusive d0) (hc : w.d.current = d0.current) (hn : w.d.next = d0.next) :
    SlotsExclusive (rotateStep w d0.current env).d := by
  rw [rotateStep_d]
  split
  · have := slotsExclusive_swap h
    simpa [SlotsExclusive, hc, hn] using this
  · simpa [SlotsExclusive, hc, hn] using h

theorem slotsExclusive_tick {lib : Lib} {w w1 : World} {env : TickEnv}
    (h : SlotsExclusive w.d) (ht : rotateTick lib w env = some w1) : SlotsExclusive w1.d := by
  unfold rotateTick at ht
  split at ht
  · injection ht with ht
    rw [← ht]
    exact slotsExclusive_rotateStep h rfl rfl
  · injection ht with ht
    rw [← ht]; exact h
  · exact absurd ht (by simp)
  · rename_i w2 hs
    injection ht with ht
    obtain ⟨newKey, m, -, -, -, hd⟩ := prepareStep_stored hs
    rw [← ht]
    exact slotsExclusive_rotateStep h (by rw [hd]) (by rw [hd])

/-- A successful `Initialize` on a missing file: the pair it generated is alone in the map,
in slot A, and the file holds that map. -/
theorem Initialize_missing {lib : Lib} {w : World} {env : InitEnv} (hf : w.file = .missing)
    (h : (Initialize lib w env).err = none) :
    ∃ kp, GenerateKey lib w.d env.keygen = .ok kp ∧
      (Initialize lib w env).w.d =
        { w.d with
          KeyPairs := some (AList.insert KeyAKey kp ∅), current := KeyAKey, next := KeyBKey } ∧
      (Initialize lib w env).w.file = .ring (some (AList.insert KeyAKey kp ∅)) := by
  unfold Initialize at h ⊢
  simp only [hf] at h ⊢
  cases hg : GenerateKey lib w.d env.keygen with
  | error e => simp [hg] at h
  | ok kp =>
    simp only [hg] at h ⊢
    refine ⟨kp, rfl, ?_⟩
    cases hw : env.write with
    | ok => simp [WriteEntry]
    | failed left => simp [hw, WriteEntry] at h

theorem Initialize_ring {lib : Lib} {w : World} {env : InitEnv} {data : Option KeyPairMap}
    (hf : w.file = .ring data) :
    Initialize lib w env = ⟨none, { w with d := loadDesignators { w.d with KeyPairs := data } }⟩ := by
  unfold Initialize
  simp only [hf]

theorem slotsExclusive_loadDesignators (d : DiskKeyManager) :
    SlotsExclusive (loadDesignators d) := by
  unfold loadDesignators
  split
  · exact Or.inr ⟨rfl, rfl⟩
  · exact Or.inl ⟨rfl, rfl⟩

theorem slotsExclusive_init {lib : Lib} {w : World} {env : InitEnv}
    (h : (Initialize lib w env).err = none) : SlotsExclusive (Initialize lib w env).w.d := by
  cases hf : w.file with
  | missing =>
    obtain ⟨kp, -, hd, -⟩ := Initialize_missing hf h
    rw [hd]
    exact Or.inl ⟨rfl, rfl⟩
  | unreadable => simp [Initialize, hf] at h
  | malformed => simp [Initialize, hf] at h
  | ring data =>
    rw [Initialize_ring hf]
    exact slotsExclusive_loadDesignators _

theorem keyA_ne_keyB : KeyAKey ≠ KeyBKey := by decide

theorem slotsExclusive_reachable {lib : Lib} {w : World} (h : Reachable lib w) :
    SlotsExclusive w.d := by
  induction h with
  | init t p rp iv file env herr => exact slotsExclusive_init herr
  | tick w w1 env _ ht ih => exact slotsExclusive_tick ih ht

/-! ## C1: slot exclusivity -/

/-- C1. In every world reachable by a successful `Initialize` (bootstrap or load) followed by
any number of iterations of the rotation loop, whatever key generation and persistence did,
the designators differ and together are exactly the two slot names. -/
theorem C1_slot_exclusivity (lib : Lib) (w : World) (h : Reachable lib w) :
    w.d.current ≠ w.d.next ∧
      ({w.d.current, w.d.next} : Set String) = {KeyAKey, KeyBKey} := by
  rcases slotsExclusive_reachable h with ⟨h1, h2⟩ | ⟨h1, h2⟩
  · rw [h1, h2]
    exact ⟨keyA_ne_keyB, rfl⟩
  · rw [h1, h2]
    exact ⟨fun e => keyA_ne_keyB e.symm, Set.pair_comm _ _⟩

/-- C1 at the bootstrapped sample world. -/
theorem C1_slot_exclusivity_witness :
    Reachable sampleLib bootWorld ∧ bootWorld.d.current ≠ bootWorld.d.next ∧
      ({bootWorld.d.current, bootWorld.d.next} : Set String) = {KeyAKey, KeyBKey} :=
  ⟨Reachable.init EC_P384 "keys.json" 6000000000 5000000000 .missing bootEnv rfl,
    C1_slot_exclusivity sampleLib bootWorld
      (Reachable.init EC_P384 "keys.json" 6000000000 5000000000 .missing bootEnv rfl)⟩

/-! ## Thresholds -/

theorem timeSub_exact {t u : Int} (h1 : -maxDuration ≤ t - u) (h2 : t - u ≤ maxDuration) :
    timeSub t u = t - u := by
  unfold timeSub minDuration
  unfold maxDuration at h1 h2 ⊢
  split
  · omega
  · split
    · omega
    · rfl

theorem durationNeg_exact {x : Int} (h1 : -maxDuration ≤ x) (h2 : x ≤ maxDuration) :
    durationNeg x = -x := by
  unfold durationNeg wrapInt64
  unfold maxDuration at h1 h2
  omega

/-- Where the lifetime is representable, the instant the code compares the clock with is
`expiresAt - lifetime / k`. -/
theorem threshold_exact (kp : KeyPair) (k : Int) (h : LifetimeRepresentable kp) :
    timeAdd kp.ExpireAt (durationDiv (durationNeg (timeSub kp.ExpireAt kp.IssueAt)) k)
      = kp.ExpireAt - Int.tdiv (kp.ExpireAt - kp.IssueAt) k := by
  rw [timeSub_exact h.1 h.2, durationNeg_exact h.1 h.2]
  unfold timeAdd durationDiv
  rw [Int.neg_tdiv]
  omega

theorem shouldPrepareNewKey_iff (d : DiskKeyManager) (now : Int)
    (h : LifetimeRepresentable (getKeyPair d d.current)) :
    shouldPrepareNewKey d now = true ↔
      specShouldPrepareNext (getKeyPair d d.current) (getKeyPair d d.next) now := by
  unfold shouldPrepareNewKey specShouldPrepareNext
  simp only [threshold_exact _ _ h, timeAfter, timeBefore, Bool.and_eq_true, decide_eq_true_eq,
    Bool.not_eq_true', decide_eq_false_iff_not, not_lt, gt_iff_lt, ge_iff_le]

theorem shouldRotateKey_iff (d : DiskKeyManager) (now : Int)
    (h : LifetimeRepresentable (getKeyPair d d.current)) :
    shouldRotateKey d now = true ↔ specShouldRotate (getKeyPair d d.current) now := by
  unfold shouldRotateKey specShouldRotate
  simp only [threshold_exact _ _ h, timeAfter, decide_eq_true_eq, gt_iff_lt]

/-- An iteration on which prepare does not fire goes straight to the rotate block. -/
theorem rotateTick_of_not_prepare {lib : Lib} {w : World} {env : TickEnv}
    (h : shouldPrepareNewKey w.d env.nowPrepare = false) :
    rotateTick lib w env = some (rotateStep w w.d.current env) := by
  unfold rotateTick prepareStep
  simp [h]

/-- An iteration on which prepare fires and generation succeeds on a map that is not nil. -/
theorem rotateTick_of_prepare {lib : Lib} {w : World} {env : TickEnv} {newKey : KeyPair}
    {m : KeyPairMap} (h : shouldPrepareNewKey w.d env.nowPrepare = true)
    (hg : GenerateKey lib w.d env.keygen = .ok newKey) (hm : w.d.KeyPairs = some m) :
    rotateTick lib w env =
      some (rotateStep
        (WriteEntry { w with d := { w.d with KeyPairs := some (m.insert w.d.next newKey) } }
          env.writePrepare).2 w.d.current env) := by
  unfold rotateTick prepareStep
  simp [h, hg, hm]

/-- A slot that reads as a pair of nonzero lifetime is populated, so the map is not nil. -/
theorem keyPairs_ne_nil_of_lifetime {d : DiskKeyManager} {k : String}
    (h : (getKeyPair d k).ExpireAt ≠ (getKeyPair d k).IssueAt) : ∃ m, d.KeyPairs = some m := by
  cases hm : d.KeyPairs with
  | none => simp [getKeyPair, slot, hm, zeroKeyPair] at h
  | some m => exact ⟨m, rfl⟩

/-! ## C3: the prepare predicate -/

/-- C3, as the code has it.  For every ring whose current pair has a lifetime
`expiresAt - issuedAt` within 2^63 - 1 ns of zero on either side, and every instant `now`,
`shouldPrepareNewKey` is true exactly when `now > expiresAt - lifetime/2` (the quotient
truncated) and `issuedAt >= next.issuedAt`, an empty next slot reading as the zero time.
So for a current pair of lifetime `L > 0` whose next slot is not newer, an iteration at an
instant up to `issuedAt + (L - L/2)` leaves every slot as it was, and an iteration at a later
instant on which key generation succeeds stores the generated pair in the next slot. -/
theorem C3_prepare_predicate (lib : Lib) (w : World) (now : Int)
    (h : LifetimeRepresentable (getKeyPair w.d w.d.current)) :
    (shouldPrepareNewKey w.d now = true ↔
      specShouldPrepareNext (getKeyPair w.d w.d.current) (getKeyPair w.d w.d.next) now) ∧
    ∀ (L : Int) (generated : Except String RawKey) (wr1 wr2 : WriteOutcome), 0 < L →
      (getKeyPair w.d w.d.current).ExpireAt = (getKeyPair w.d w.d.current).IssueAt + L →
      ¬ (getKeyPair w.d w.d.current).IssueAt < (getKeyPair w.d w.d.next).IssueAt →
      (now ≤ (getKeyPair w.d w.d.current).IssueAt + (L - Int.tdiv L 2) →
        ∃ w1, rotateTick lib w (tickAt now generated wr1 wr2) = some w1 ∧
          w1.d.KeyPairs = w.d.KeyPairs) ∧
      ((getKeyPair w.d w.d.current).IssueAt + (L - Int.tdiv L 2) < now →
        ∀ newKey, GenerateKey lib w.d ⟨now, generated⟩ = .ok newKey →
          ∃ w1, rotateTick lib w (tickAt now generated wr1 wr2) = some w1 ∧
            slot w1.d w.d.next = some newKey) := by
  have hiff := shouldPrepareNewKey_iff w.d now h
  refine ⟨hiff, ?_⟩
  intro L generated wr1 wr2 hL hE hnext
  have hsub : (getKeyPair w.d w.d.current).ExpireAt - (getKeyPair w.d w.d.current).IssueAt = L := by
    omega
  constructor
  · intro hnow
    have hp : shouldPrepareNewKey w.d (tickAt now generated wr1 wr2).nowPrepare = false := by
      rw [Bool.eq_false_iff]
      intro ht
      have := (hiff.mp ht).1
      unfold specShouldPrepareNext at this
      rw [hsub] at this
      omega
    exact ⟨_, rotateTick_of_not_prepare hp, rotateStep_KeyPairs _ _ _⟩
  · intro hnow newKey hg
    have hp : shouldPrepareNewKey w.d (tickAt now generated wr1 wr2).nowPrepare = true := by
      apply hiff.mpr
      unfold specShouldPrepareNext
      rw [hsub]
      constructor <;> omega
    obtain ⟨m, hm⟩ := keyPairs_ne_nil_of_lifetime (d := w.d) (k := w.d.current) (by omega)
    refine ⟨_, rotateTick_of_prepare hp hg hm, ?_⟩
    rw [slot_rotateStep]
    simp [slot, WriteEntry_d, AList.lookup_insert]

/-- C3 at the manager whose current pair has a lifetime of 3 ns: at instant `issuedAt + 3`
prepare fires. -/
theorem C3_prepare_predicate_witness :
    LifetimeRepresentable (getKeyPair oddManager oddManager.current) ∧
      (shouldPrepareNewKey oddManager 1000000000003 = true ↔
        specShouldPrepareNext (getKeyPair oddManager oddManager.current)
          (getKeyPair oddManager oddManager.next) 1000000000003) :=
  ⟨by decide,
    (C3_prepare_predicate sampleLib ⟨oddManager, .missing⟩ 1000000000003 (by decide)).1⟩

/-- C3 as stated fails.  First, on the ring whose current pair was issued 2^63 ns after it
expires the code negates the minimal duration, which wraps: `shouldPrepareNewKey` is true at
the instant of expiry while the specification's predicate is false.  Second, for a current
pair of lifetime `L = 3` ns and an empty next slot, the iteration at `issuedAt + L/2 + 1`
does not regenerate the next slot, which stays empty. -/
theorem C3_counterexample :
    (shouldPrepareNewKey backwardManager 64000000000000000000 = true ∧
      ¬ specShouldPrepareNext (getKeyPair backwardManager backwardManager.current)
          (getKeyPair backwardManager backwardManager.next) 64000000000000000000) ∧
    (oddKey.ExpireAt = oddKey.IssueAt + 3 ∧
      (rotateTick sampleLib ⟨oddManager, .missing⟩
        (tickAt (oddKey.IssueAt + Int.tdiv 3 2 + 1) (.ok rawKey1) .ok .ok)).map
          (fun w1 => slot w1.d oddManager.next) = some none) := by
  refine ⟨⟨by decide, by decide⟩, by decide, by decide⟩

/-! ## C4: the rotate step -/

/-- C4, as the code has it.  For every ring whose current pair has a lifetime within
2^63 - 1 ns of zero on either side and every iteration at instant `now` on which prepare does
not fire: if `now > expiresAt - lifetime/6` the iteration ends with the former next
designator as current and the former current as next, and with the map of pairs as it was;
otherwise the iteration changes nothing. -/
theorem C4_rotate_swaps_designators (lib : Lib) (w : World) (now : Int)
    (generated : Except String RawKey) (wr1 wr2 : WriteOutcome)
    (h : LifetimeRepresentable (getKeyPair w.d w.d.current))
    (hp : shouldPrepareNewKey w.d now = false) :
    (specShouldRotate (getKeyPair w.d w.d.current) now →
      ∃ w1, rotateTick lib w (tickAt now generated wr1 wr2) = some w1 ∧
        w1.d.current = w.d.next ∧ w1.d.next = w.d.current ∧ w1.d.KeyPairs = w.d.KeyPairs) ∧
    (¬ specShouldRotate (getKeyPair w.d w.d.current) now →
      rotateTick lib w (tickAt now generated wr1 wr2) = some w) := by
  have ht : rotateTick lib w (tickAt now generated wr1 wr2)
      = some (rotateStep w w.d.current (tickAt now generated wr1 wr2)) :=
    rotateTick_of_not_prepare hp
  have hiff := shouldRotateKey_iff w.d now h
  constructor
  · intro hs
    refine ⟨_, ht, ?_⟩
    rw [rotateStep_d]
    have : shouldRotateKey w.d (tickAt now generated wr1 wr2).nowRotate = true := hiff.mpr hs
    simp [this]
  · intro hs
    rw [ht]
    have : shouldRotateKey w.d (tickAt now generated wr1 wr2).nowRotate = false := by
      rw [Bool.eq_false_iff]
      exact fun hc => hs (hiff.mp hc)
    unfold rotateStep
    simp [this]

/-- C4 at the bootstrapped sample world, two seconds after the bootstrap. -/
theorem C4_rotate_swaps_designators_witness :
    LifetimeRepresentable (getKeyPair bootWorld.d bootWorld.d.current) ∧
      shouldPrepareNewKey bootWorld.d 1002000000000 = false ∧
      rotateTick sampleLib bootWorld (tickAt 1002000000000 (.ok rawKey1) .ok .ok)
        = some bootWorld :=
  ⟨by decide, by decide,
    (C4_rotate_swaps_designators sampleLib bootWorld 1002000000000 (.ok rawKey1) .ok .ok
      (by decide) (by decide)).2 (by decide)⟩

/-- C4 as stated fails on the ring whose current pair was issued 2^63 ns after it expires
and whose next pair is newer: at the instant of expiry prepare does not fire and
`now > expiresAt - lifetime/6` is false, yet the iteration swaps the designators. -/
theorem C4_counterexample :
    shouldPrepareNewKey backwardPreparedManager 64000000000000000000 = false ∧
      ¬ specShouldRotate (getKeyPair backwardPreparedManager backwardPreparedManager.current)
          64000000000000000000 ∧
      backwardPreparedManager.current = KeyAKey ∧
      (rotateTick sampleLib ⟨backwardPreparedManager, .missing⟩
        (tickAt 64000000000000000000 (.ok rawKey1) .ok .ok)).map (fun w1 => w1.d.current)
          = some KeyBKey := by
  refine ⟨by decide, by decide, rfl, by decide⟩

/-! ## GenerateKey -/

theorem GenerateKey_ok {lib : Lib} {d : DiskKeyManager} {env : KeyGenEnv} {kp : KeyPair}
    (h : GenerateKey lib d env = .ok kp) :
    (d.Typ = EC_P256 ∨ d.Typ = EC_P384) ∧ kp.IssueAt = env.now ∧
      kp.ExpireAt = env.now + d.RotationPeriod ∧ kp.ID = lib.ripemd160Hex kp.PublicKeyDER ∧
      ∃ raw, env.generated = .ok raw ∧ kp.PrivateKeyDER = raw.privDER ∧
        kp.PublicKeyDER = raw.pubDER := by
  unfold GenerateKey at h
  split at h
  · rename_i ht
    cases hg : env.generated with
    | error e => simp [hg] at h
    | ok raw =>
      simp only [hg, MarshalECPrivateKey, MarshalPKIXPublicKey, finishKeyPair, timeAdd] at h
      injection h with h
      subst h
      exact ⟨ht, rfl, rfl, rfl, raw, rfl, rfl, rfl⟩
  · split at h
    · cases hg : env.generated with
      | error e => simp [hg] at h
      | ok raw => simp [hg, MarshalPKIXPublicKey] at h
    · simp at h

theorem GenerateKey_congr (lib : Lib) {d d1 : DiskKeyManager} (env : KeyGenEnv)
    (ht : d1.Typ = d.Typ) (hr : d1.RotationPeriod = d.RotationPeriod) :
    GenerateKey lib d1 env = GenerateKey lib d env := by
  unfold GenerateKey finishKeyPair
  rw [ht, hr]

theorem Issued_congr {lib : Lib} {d d1 : DiskKeyManager} {kp : KeyPair}
    (ht : d1.Typ = d.Typ) (hr : d1.RotationPeriod = d.RotationPeriod) (h : Issued lib d kp) :
    Issued lib d1 kp := by
  obtain ⟨h0, env, he⟩ := h
  exact ⟨h0, env, by rw [GenerateKey_congr lib env ht hr]; exact he⟩

theorem Issued_lifetime {lib : Lib} {d : DiskKeyManager} {kp : KeyPair} (h : Issued lib d kp) :
    kp.ExpireAt = kp.IssueAt + d.RotationPeriod := by
  obtain ⟨-, env, he⟩ := h
  obtain ⟨-, h1, h2, -⟩ := GenerateKey_ok he
  rw [h1, h2]

/-! ## The invariant of the bootstrapped ring -/

theorem getKeyPair_of_slot {d : DiskKeyManager} {k : String} {kp : KeyPair}
    (h : slot d k = some kp) : getKeyPair d k = kp := by
  simp [getKeyPair, h]

theorem getKeyPair_of_slot_none {d : DiskKeyManager} {k : String}
    (h : slot d k = none) : getKeyPair d k = zeroKeyPair := by
  simp [getKeyPair, h]

theorem current_ne_next {d : DiskKeyManager} (h : SlotsExclusive d) : d.current ≠ d.next := by
  rcases h with ⟨h1, h2⟩ | ⟨h1, h2⟩
  · rw [h1, h2]; exact keyA_ne_keyB
  · rw [h1, h2]; exact fun e => keyA_ne_keyB e.symm

theorem tdiv_six_le_half {rp : Int} (h : 0 < rp) :
    Int.tdiv rp 6 ≤ Int.tdiv rp 2 ∧ Int.tdiv rp 2 < rp ∧ 0 ≤ Int.tdiv rp 6 := by
  rw [Int.tdiv_eq_ediv (by omega) (by omega), Int.tdiv_eq_ediv (by omega) (by omega)]
  omega

theorem Issued_representable {lib : Lib} {d : DiskKeyManager} {kp : KeyPair}
    (h : Issued lib d kp) (h1 : 0 < d.RotationPeriod) (h2 : d.RotationPeriod ≤ maxDuration) :
    LifetimeRepresentable kp := by
  have := Issued_lifetime h
  unfold LifetimeRepresentable
  unfold maxDuration at h2 ⊢
  constructor <;> omega

/-- In an invariant state prepare fires exactly after `issuedAt + (rp - rp/2)` of the current
pair, provided the current pair is not older than the next one. -/
theorem bootInv_prepare_iff {lib : Lib} {d : DiskKeyManager} (hI : BootInv lib d) (now : Int) :
    shouldPrepareNewKey d now = true ↔
      (getKeyPair d d.current).IssueAt + (d.RotationPeriod - Int.tdiv d.RotationPeriod 2) < now ∧
        ¬ (getKeyPair d d.current).IssueAt < (getKeyPair d d.next).IssueAt := by
  obtain ⟨kc, hkc, hkcI⟩ := hI.cur
  have hget := getKeyPair_of_slot hkc
  have hrep := Issued_representable hkcI hI.rp_pos hI.rp_le
  have hl := Issued_lifetime hkcI
  rw [shouldPrepareNewKey_iff d now (by rw [hget]; exact hrep)]
  unfold specShouldPrepareNext
  rw [hget]
  have : kc.ExpireAt - kc.IssueAt = d.RotationPeriod := by omega
  rw [this]
  constructor
  · rintro ⟨h1, h2⟩
    constructor <;> omega
  · rintro ⟨h1, h2⟩
    constructor <;> omega

theorem bootInv_rotate_iff {lib : Lib} {d : DiskKeyManager} (hI : BootInv lib d) (now : Int) :
    shouldRotateKey d now = true ↔
      (getKeyPair d d.current).IssueAt + (d.RotationPeriod - Int.tdiv d.RotationPeriod 6)
        < now := by
  obtain ⟨kc, hkc, hkcI⟩ := hI.cur
  have hget := getKeyPair_of_slot hkc
  have hrep := Issued_representable hkcI hI.rp_pos hI.rp_le
  have hl := Issued_lifetime hkcI
  rw [shouldRotateKey_iff d now (by rw [hget]; exact hrep)]
  unfold specShouldRotate
  rw [hget]
  have : kc.ExpireAt - kc.IssueAt = d.RotationPeriod := by omega
  rw [this]
  constructor <;> intro h <;> omega

/-- When rotate fires on an iteration on which prepare does not, the next slot holds a pair
newer than the current one. -/
theorem bootInv_next_of_rotate {lib : Lib} {d : DiskKeyManager} (hI : BootInv lib d)
    {now now1 : Int}
    (hgap : now1 ≤ now + (Int.tdiv d.RotationPeriod 2 - Int.tdiv d.RotationPeriod 6))
    (hp : shouldPrepareNewKey d now = false) (hr : shouldRotateKey d now1 = true) :
    ∃ kn, slot d d.next = some kn ∧ (getKeyPair d d.current).IssueAt < kn.IssueAt := by
  have hr1 := (bootInv_rotate_iff hI now1).mp hr
  have hp1 : ¬ _ := fun h => by
    have := (bootInv_prepare_iff hI now).mpr h
    rw [hp] at this
    exact absurd this (by simp)
  have hdiv := tdiv_six_le_half hI.rp_pos
  have hlt : (getKeyPair d d.current).IssueAt < (getKeyPair d d.next).IssueAt := by
    by_contra hc
    exact hp1 ⟨by omega, hc⟩
  obtain ⟨kc, hkc, hkcI⟩ := hI.cur
  have hget := getKeyPair_of_slot hkc
  cases hn : slot d d.next with
  | none =>
    rw [getKeyPair_of_slot_none hn, hget] at hlt
    have := hkcI.1
    simp only [zeroKeyPair] at hlt
    omega
  | some kn =>
    rw [getKeyPair_of_slot hn] at hlt
    exact ⟨kn, rfl, hlt⟩

/-- Storing the pair generated on an iteration on which prepare fires keeps the invariant,
and the stored pair is newer than the current one. -/
theorem bootInv_store {lib : Lib} {d : DiskKeyManager} {m : KeyPairMap} {now : Int}
    {e : KeyGenEnv} {newKey : KeyPair} (hI : BootInv lib d) (hm : d.KeyPairs = some m)
    (hp : shouldPrepareNewKey d now = true) (hn : now ≤ e.now)
    (hg : GenerateKey lib d e = .ok newKey) :
    BootInv lib { d with KeyPairs := some (m.insert d.next newKey) } ∧
      (getKeyPair d d.current).IssueAt < newKey.IssueAt := by
  obtain ⟨kc, hkc, hkcI⟩ := hI.cur
  have hget := getKeyPair_of_slot hkc
  have hdiv := tdiv_six_le_half hI.rp_pos
  have hlt : kc.IssueAt < newKey.IssueAt := by
    have h1 := ((bootInv_prepare_iff hI now).mp hp).1
    rw [hget] at h1
    have h2 := (GenerateKey_ok hg).2.1
    omega
  have hne := current_ne_next hI.excl
  have hcur : slot { d with KeyPairs := some (m.insert d.next newKey) } d.current = some kc := by
    have : m.lookup d.current = some kc := by simpa [slot, hm] using hkc
    simp [slot, AList.lookup_insert_ne hne, this]
  have hnxt : slot { d with KeyPairs := some (m.insert d.next newKey) } d.next = some newKey := by
    simp [slot, AList.lookup_insert]
  refine ⟨⟨hI.excl, hI.rp_pos, hI.rp_le, hI.typ, ?_, ?_, ?_, ?_⟩, by rw [hget]; exact hlt⟩
  · refine ⟨_, rfl, fun k hk => ?_⟩
    rw [AList.mem_insert] at hk
    rcases hk with rfl | hk
    · rcases hI.excl with ⟨-, h2⟩ | ⟨-, h2⟩
      · exact Or.inr h2
      · exact Or.inl h2
    · obtain ⟨m0, hm0, hk0⟩ := hI.keys
      rw [hm] at hm0
      injection hm0 with hm0
      subst hm0
      exact hk0 k hk
  · obtain ⟨ka, hka⟩ := hI.slotA
    by_cases hA : KeyAKey = d.next
    · exact ⟨newKey, by rw [hA]; exact hnxt⟩
    · have : m.lookup KeyAKey = some ka := by simpa [slot, hm] using hka
      exact ⟨ka, by simp [slot, AList.lookup_insert_ne hA, this]⟩
  · exact ⟨kc, hcur, Issued_congr rfl rfl hkcI⟩
  · intro kn hkn
    have hkn1 : slot { d with KeyPairs := some (m.insert d.next newKey) } d.next = some kn := hkn
    rw [hnxt] at hkn1
    injection hkn1 with hkn1
    subst hkn1
    have hget1 : getKeyPair { d with KeyPairs := some (m.insert d.next newKey) } d.current = kc :=
      getKeyPair_of_slot hcur
    refine ⟨⟨by have := hkcI.1; omega, e, by rw [GenerateKey_congr lib e rfl rfl]; exact hg⟩, ?_⟩
    show newKey.IssueAt ≠ (getKeyPair _ d.current).IssueAt
    rw [hget1]
    omega

/-- Swapping the designators keeps the invariant when the next slot is populated. -/
theorem bootInv_swap {lib : Lib} {d : DiskKeyManager} {kn : KeyPair} (hI : BootInv lib d)
    (hn : slot d d.next = some kn) :
    BootInv lib { d with current := d.next, next := d.current } := by
  obtain ⟨kc, hkc, hkcI⟩ := hI.cur
  have hget := getKeyPair_of_slot hkc
  obtain ⟨hknI, hkne⟩ := hI.nxt kn hn
  refine ⟨slotsExclusive_swap hI.excl, hI.rp_pos, hI.rp_le, hI.typ, hI.keys, hI.slotA, ?_, ?_⟩
  · exact ⟨kn, hn, Issued_congr rfl rfl hknI⟩
  · intro kn1 hkn1
    have h1 : slot d d.current = some kn1 := hkn1
    rw [hkc] at h1
    injection h1 with h1
    subst h1
    refine ⟨Issued_congr rfl rfl hkcI, ?_⟩
    show kc.IssueAt ≠ (getKeyPair d d.next).IssueAt
    rw [getKeyPair_of_slot hn]
    rw [hget] at hkne
    exact fun e => hkne e.symm

theorem store_reads {d : DiskKeyManager} {m : KeyPairMap} (newKey : KeyPair)
    (hm : d.KeyPairs = some m) (hne : d.current ≠ d.next) :
    getKeyPair { d with KeyPairs := some (m.insert d.next newKey) } d.current
        = getKeyPair d d.current ∧
      getKeyPair { d with KeyPairs := some (m.insert d.next newKey) } d.next = newKey := by
  unfold getKeyPair slot
  simp [hm, AList.lookup_insert_ne hne, AList.lookup_insert]

/-- The three ways an iteration that does not panic can go. -/
theorem rotateTick_cases {lib : Lib} {w w1 : World} {env : TickEnv}
    (ht : rotateTick lib w env = some w1) :
    (shouldPrepareNewKey w.d env.nowPrepare = false ∧ w1 = rotateStep w w.d.current env) ∨
    (shouldPrepareNewKey w.d env.nowPrepare = true ∧
      (∃ e, GenerateKey lib w.d env.keygen = .error e) ∧ w1 = w) ∨
    (shouldPrepareNewKey w.d env.nowPrepare = true ∧
      ∃ newKey m, GenerateKey lib w.d env.keygen = .ok newKey ∧ w.d.KeyPairs = some m ∧
        w1 = rotateStep
          (WriteEntry { w with d := { w.d with KeyPairs := some (m.insert w.d.next newKey) } }
            env.writePrepare).2 w.d.current env) := by
  cases hp : shouldPrepareNewKey w.d env.nowPrepare with
  | false =>
    left
    rw [rotateTick_of_not_prepare hp] at ht
    injection ht with ht
    exact ⟨rfl, ht.symm⟩
  | true =>
    right
    cases hg : GenerateKey lib w.d env.keygen with
    | error e =>
      left
      refine ⟨rfl, ⟨e, rfl⟩, ?_⟩
      unfold rotateTick prepareStep at ht
      simp only [hp, hg, if_true] at ht
      injection ht with ht
      exact ht.symm
    | ok newKey =>
      right
      cases hm : w.d.KeyPairs with
      | none =>
        unfold rotateTick prepareStep at ht
        simp [hp, hg, hm] at ht
      | some m =>
        rw [rotateTick_of_prepare hp hg hm] at ht
        injection ht with ht
        exact ⟨rfl, newKey, m, rfl, rfl, ht.symm⟩

/-- The rotate block on an invariant state: it leaves the manager, or swaps the designators
of a ring whose next slot holds a pair newer than the current one. -/
theorem bootInv_rotateStep {lib : Lib} {w : World} {e : TickEnv} (hI : BootInv lib w.d)
    (hnext : shouldRotateKey w.d e.nowRotate = true →
      ∃ kn, slot w.d w.d.next = some kn ∧ (getKeyPair w.d w.d.current).IssueAt < kn.IssueAt) :
    BootInv lib (rotateStep w w.d.current e).d ∧
      ((shouldRotateKey w.d e.nowRotate = false ∧ (rotateStep w w.d.current e).d = w.d) ∨
        (shouldRotateKey w.d e.nowRotate = true ∧
          (rotateStep w w.d.current e).d =
            { w.d with current := w.d.next, next := w.d.current } ∧
          ∃ kn, slot w.d w.d.next = some kn ∧
            (getKeyPair w.d w.d.current).IssueAt < kn.IssueAt)) := by
  rw [rotateStep_d]
  cases hr : shouldRotateKey w.d e.nowRotate with
  | false => simp [hI]
  | true =>
    obtain ⟨kn, hkn, hlt⟩ := hnext hr
    rw [if_pos rfl]
    exact ⟨bootInv_swap hI hkn, Or.inr ⟨rfl, rfl, kn, hkn, hlt⟩⟩

/-- An iteration that reads one instant from the clock throughout has close readings. -/
theorem readingsClose_tickAt {d : DiskKeyManager} (h : 0 < d.RotationPeriod) (now : Int)
    (generated : Except String RawKey) (wr1 wr2 : WriteOutcome) :
    ReadingsClose d (tickAt now generated wr1 wr2) := by
  have := tdiv_six_le_half h
  unfold ReadingsClose tickAt
  constructor
  · exact le_refl _
  · show now ≤ now + _
    omega

/-- An iteration whose clock readings are close keeps the invariant. -/
theorem bootInv_tick {lib : Lib} {w w1 : World} {env : TickEnv} (hI : BootInv lib w.d)
    (hc : ReadingsClose w.d env) (ht : rotateTick lib w env = some w1) : BootInv lib w1.d := by
  rcases rotateTick_cases ht with ⟨hp, h1⟩ | ⟨-, -, h1⟩ | ⟨hp, newKey, m, hg, hm, h1⟩
  · rw [h1]
    exact (bootInv_rotateStep hI (fun hr => bootInv_next_of_rotate hI hc.2 hp hr)).1
  · rw [h1]; exact hI
  · obtain ⟨hI1, hlt⟩ := bootInv_store hI hm hp hc.1 hg
    obtain ⟨r1, r2⟩ := store_reads newKey hm (current_ne_next hI.excl)
    rw [h1]
    have hd := WriteEntry_d
      { w with d := { w.d with KeyPairs := some (m.insert w.d.next newKey) } } env.writePrepare
    have hI2 : BootInv lib (WriteEntry
      { w with d := { w.d with KeyPairs := some (m.insert w.d.next newKey) } }
        env.writePrepare).2.d := by
      rw [hd]; exact hI1
    have hcur : (WriteEntry
      { w with d := { w.d with KeyPairs := some (m.insert w.d.next newKey) } }
        env.writePrepare).2.d.current = w.d.current := by
      rw [hd]
    have := (bootInv_rotateStep (e := env) hI2 (fun _ => by
      rw [hd]
      refine ⟨newKey, by simp [slot, AList.lookup_insert], ?_⟩
      show (getKeyPair _ w.d.current).IssueAt < _
      rw [r1]; exact hlt)).1
    rw [hcur] at this
    exact this

theorem bootInv_boot {lib : Lib} {t : Int} {p : String} {rp iv : Int} {env : InitEnv}
    (h1 : 0 < rp) (h2 : rp ≤ maxDuration) (h3 : 0 ≤ env.keygen.now)
    (h : (Initialize lib ⟨NewDiskKeyManager t p rp iv, .missing⟩ env).err = none) :
    BootInv lib (Initialize lib ⟨NewDiskKeyManager t p rp iv, .missing⟩ env).w.d := by
  obtain ⟨kp, hg, hd, -⟩ := Initialize_missing (w := ⟨NewDiskKeyManager t p rp iv, .missing⟩) rfl h
  rw [hd]
  have hok := GenerateKey_ok hg
  have hA : slot ({ NewDiskKeyManager t p rp iv with
      KeyPairs := some (AList.insert KeyAKey kp ∅), current := KeyAKey, next := KeyBKey } :
        DiskKeyManager) KeyAKey = some kp := by
    show AList.lookup KeyAKey (AList.insert KeyAKey kp (∅ : KeyPairMap)) = some kp
    exact AList.lookup_insert _
  refine ⟨Or.inl ⟨rfl, rfl⟩, h1, h2, hok.1, ⟨_, rfl, fun k hk => ?_⟩, ⟨kp, hA⟩,
    ⟨kp, ?_, ?_, env.keygen, ?_⟩, ?_⟩
  · rw [AList.mem_insert] at hk
    rcases hk with rfl | hk
    · exact Or.inl rfl
    · exact absurd hk (AList.not_mem_empty k)
  · show AList.lookup KeyAKey (AList.insert KeyAKey kp (∅ : KeyPairMap)) = some kp
    exact AList.lookup_insert _
  · rw [hok.2.1]; exact h3
  · rw [GenerateKey_congr lib env.keygen rfl rfl]; exact hg
  · intro kn hkn
    have : slot ({ NewDiskKeyManager t p rp iv with
      KeyPairs := some (AList.insert KeyAKey kp ∅), current := KeyAKey, next := KeyBKey } :
        DiskKeyManager) KeyBKey = none := by
      show AList.lookup KeyBKey (AList.insert KeyAKey kp (∅ : KeyPairMap)) = none
      rw [AList.lookup_insert_ne (Ne.symm keyA_ne_keyB)]
      exact AList.lookup_empty _
    rw [show slot _ _ = slot _ KeyBKey from rfl, this] at hkn
    exact absurd hkn (by simp)

theorem bootInv_reachable {lib : Lib} {w : World} (h : BootReachable lib w) :
    BootInv lib w.d := by
  induction h with
  | boot t p rp iv env h1 h2 h3 herr => exact bootInv_boot h1 h2 h3 herr
  | tick w w1 env _ hc ht ih => exact bootInv_tick ih hc ht

/-! ## C2: a signing key always exists -/

theorem bootReachable_started {lib : Lib} {w : World} (h : BootReachable lib w) :
    BootStarted lib w := by
  induction h with
  | boot t p rp iv env _ _ _ herr => exact BootStarted.boot t p rp iv env herr
  | tick w w1 env _ _ ht ih => exact BootStarted.tick w w1 env ih ht

/-- After a bootstrap slot A stays populated, whatever the iterations do. -/
theorem bootStarted_slotA {lib : Lib} {w : World} (h : BootStarted lib w) :
    ∃ ka, slot w.d KeyAKey = some ka := by
  induction h with
  | boot t p rp iv env herr =>
    obtain ⟨kp, -, hd, -⟩ :=
      Initialize_missing (w := ⟨NewDiskKeyManager t p rp iv, .missing⟩) rfl herr
    rw [hd]
    refine ⟨kp, ?_⟩
    show AList.lookup KeyAKey (AList.insert KeyAKey kp (∅ : KeyPairMap)) = some kp
    exact AList.lookup_insert _
  | tick w w1 env _ ht ih =>
    obtain ⟨ka, hka⟩ := ih
    rcases rotateTick_cases ht with ⟨-, h1⟩ | ⟨-, -, h1⟩ | ⟨-, newKey, m, -, hm, h1⟩
    · rw [h1, slot_rotateStep]; exact ⟨ka, hka⟩
    · rw [h1]; exact ⟨ka, hka⟩
    · rw [h1, slot_rotateStep]
      unfold slot
      rw [WriteEntry_d]
      by_cases hA : KeyAKey = w.d.next
      · exact ⟨newKey, by rw [hA]; exact AList.lookup_insert _⟩
      · have : m.lookup KeyAKey = some ka := by simpa [slot, hm] using hka
        exact ⟨ka, by
          show AList.lookup KeyAKey (AList.insert w.d.next newKey m) = some ka
          rw [AList.lookup_insert_ne hA]; exact this⟩

theorem bootWorld_reachable : BootReachable sampleLib bootWorld :=
  BootReachable.boot EC_P384 "keys.json" 6000000000 5000000000 bootEnv
    (by decide) (by decide) (by decide) rfl

theorem preparedWorld_reachable : BootReachable sampleLib preparedWorld :=
  BootReachable.tick bootWorld preparedWorld (tickAt 1003000000001 (.ok rawKey1) .ok .ok)
    bootWorld_reachable (by decide) rfl

theorem splitWorld_started : BootStarted sampleLib splitWorld :=
  BootStarted.tick bootWorld splitWorld splitEnv
    (bootReachable_started bootWorld_reachable) rfl

/-- C2, as the code has it.  In every world reachable from a first-run bootstrap with a
positive rotation period by iterations of the rotation loop whose clock readings are close
(`GenerateKey` reads the clock no earlier than the prepare check, and the rotate check reads
it at most `RotationPeriod/2 - RotationPeriod/6` after the prepare check), whatever key
generation and persistence did, the slot designated current is populated with a pair that
`GenerateKey` produced, and `GetPrivateKey` returns that pair's id together with the decoding
of its private key. -/
theorem C2_signing_key_exists (lib : Lib) (w : World) (h : BootReachable lib w) :
    ∃ kp, slot w.d w.d.current = some kp ∧ (∃ env, GenerateKey lib w.d env = .ok kp) ∧
      GetPrivateKey lib w.d = (kp.ID, lib.ParseECPrivateKey kp.PrivateKeyDER) := by
  have hI := bootInv_reachable h
  obtain ⟨kc, hkc, -, hgen⟩ := hI.cur
  refine ⟨kc, hkc, hgen, ?_⟩
  unfold GetPrivateKey
  rw [getKeyPair_of_slot hkc]
  simp [hI.typ]

/-- C2 at the sample ring after the iteration that prepared slot B. -/
theorem C2_signing_key_exists_witness :
    BootReachable sampleLib preparedWorld ∧
      ∃ kp, slot preparedWorld.d preparedWorld.d.current = some kp ∧
        (∃ env, GenerateKey sampleLib preparedWorld.d env = .ok kp) ∧
        GetPrivateKey sampleLib preparedWorld.d
          = (kp.ID, sampleLib.ParseECPrivateKey kp.PrivateKeyDER) :=
  ⟨BootReachable.tick bootWorld preparedWorld (tickAt 1003000000001 (.ok rawKey1) .ok .ok)
      (BootReachable.boot EC_P384 "keys.json" 6000000000 5000000000 bootEnv
        (by decide) (by decide) (by decide) rfl) (by decide) rfl,
    C2_signing_key_exists sampleLib preparedWorld
      (BootReachable.tick bootWorld preparedWorld (tickAt 1003000000001 (.ok rawKey1) .ok .ok)
        (BootReachable.boot EC_P384 "keys.json" 6000000000 5000000000 bootEnv
          (by decide) (by decide) (by decide) rfl) (by decide) rfl)⟩

/-- C2 as stated fails.  After the sample bootstrap (rotation period 6 s, slot A filled, slot
B empty) one iteration reads the clock 1 s after the bootstrap in `shouldPrepareNewKey`, which
is false, and 5.5 s after it in `shouldRotateKey`, which is true: the readings do not decrease,
the designators are exchanged, the current slot is the empty Key-B and `GetPrivateKey` returns
the empty id and an error. -/
theorem C2_counterexample :
    BootStarted sampleLib bootWorld ∧ 0 < bootWorld.d.RotationPeriod ∧
      slot bootWorld.d KeyBKey = none ∧
      bootEnv.keygen.now ≤ splitEnv.nowPrepare ∧ splitEnv.nowPrepare ≤ splitEnv.keygen.now ∧
      splitEnv.keygen.now ≤ splitEnv.nowRotate ∧
      rotateTick sampleLib bootWorld splitEnv = some splitWorld ∧
      splitWorld.d.current = KeyBKey ∧ slot splitWorld.d splitWorld.d.current = none ∧
      GetPrivateKey sampleLib splitWorld.d = ("", .error "asn1: syntax error") :=
  ⟨bootReachable_started bootWorld_reachable, by decide, by decide, by decide, by decide,
    by decide, rfl, rfl, rfl, rfl⟩

/-! ## C5: designators at load time -/

/-- C5, as the code has it.  When `Initialize` loads an existing ring it succeeds, keeps the
decoded map, and sets current to Key-B and next to Key-A exactly when Key-A's issuedAt is
strictly before Key-B's, and current to Key-A and next to Key-B otherwise; so with equal
timestamps current is Key-A, and with a missing Key-B entry current is Key-A whenever
Key-A's issuedAt is not before the zero time. -/
theorem C5_load_designators (lib : Lib) (d0 : DiskKeyManager) (data : Option KeyPairMap)
    (env : InitEnv) :
    (Initialize lib ⟨d0, .ring data⟩ env).err = none ∧
    (Initialize lib ⟨d0, .ring data⟩ env).w.d.KeyPairs = data ∧
    ((Initialize lib ⟨d0, .ring data⟩ env).w.d.current = KeyBKey ↔
      (getKeyPair { d0 with KeyPairs := data } KeyAKey).IssueAt
        < (getKeyPair { d0 with KeyPairs := data } KeyBKey).IssueAt) ∧
    (((Initialize lib ⟨d0, .ring data⟩ env).w.d.current = KeyBKey ∧
        (Initialize lib ⟨d0, .ring data⟩ env).w.d.next = KeyAKey) ∨
      ((Initialize lib ⟨d0, .ring data⟩ env).w.d.current = KeyAKey ∧
        (Initialize lib ⟨d0, .ring data⟩ env).w.d.next = KeyBKey)) ∧
    ((getKeyPair { d0 with KeyPairs := data } KeyAKey).IssueAt
        = (getKeyPair { d0 with KeyPairs := data } KeyBKey).IssueAt →
      (Initialize lib ⟨d0, .ring data⟩ env).w.d.current = KeyAKey) ∧
    (slot { d0 with KeyPairs := data } KeyBKey = none →
      0 ≤ (getKeyPair { d0 with KeyPairs := data } KeyAKey).IssueAt →
      (Initialize lib ⟨d0, .ring data⟩ env).w.d.current = KeyAKey) := by
  rw [Initialize_ring (w := ⟨d0, .ring data⟩) rfl]
  by_cases hlt : (getKeyPair { d0 with KeyPairs := data } KeyAKey).IssueAt
      < (getKeyPair { d0 with KeyPairs := data } KeyBKey).IssueAt
  · have hd : loadDesignators { d0 with KeyPairs := data }
        = { d0 with KeyPairs := data, current := KeyBKey, next := KeyAKey } := by
      unfold loadDesignators timeBefore
      rw [if_pos (by simpa using hlt)]
    rw [hd]
    refine ⟨rfl, rfl, ⟨fun _ => hlt, fun _ => rfl⟩, Or.inl ⟨rfl, rfl⟩, fun he => ?_, fun hn h0 => ?_⟩
    · omega
    · rw [getKeyPair_of_slot_none hn] at hlt
      simp only [zeroKeyPair] at hlt
      omega
  · have hd : loadDesignators { d0 with KeyPairs := data }
        = { d0 with KeyPairs := data, current := KeyAKey, next := KeyBKey } := by
      unfold loadDesignators timeBefore
      rw [if_neg (by simpa using hlt)]
    rw [hd]
    exact ⟨rfl, rfl, ⟨fun h => absurd h keyA_ne_keyB, fun h => absurd h hlt⟩,
      Or.inr ⟨rfl, rfl⟩, fun _ => rfl, fun _ _ => rfl⟩

/-- C5 at the file written by the sample bootstrap: Key-B is missing and current is Key-A. -/
theorem C5_load_designators_witness :
    slot { freshWorld.d with KeyPairs := bootWorld.d.KeyPairs } KeyBKey = none ∧
      0 ≤ (getKeyPair { freshWorld.d with KeyPairs := bootWorld.d.KeyPairs } KeyAKey).IssueAt ∧
      (Initialize sampleLib ⟨freshWorld.d, .ring bootWorld.d.KeyPairs⟩ bootEnv).w.d.current
        = KeyAKey :=
  ⟨by decide, by decide,
    (C5_load_designators sampleLib freshWorld.d bootWorld.d.KeyPairs bootEnv).2.2.2.2.2
      (by decide) (by decide)⟩

/-- C5 as stated fails on a key file whose only entry is Key-A with an issuedAt one second
before Go's zero time: Key-B is missing, yet current becomes Key-B. -/
theorem C5_counterexample :
    slot (Initialize sampleLib ⟨freshWorld.d, ancientFile⟩ bootEnv).w.d KeyBKey = none ∧
      (Initialize sampleLib ⟨freshWorld.d, ancientFile⟩ bootEnv).err = none ∧
      (Initialize sampleLib ⟨freshWorld.d, ancientFile⟩ bootEnv).w.d.current = KeyBKey := by
  refine ⟨by decide, by decide, by decide⟩

/-! ## C6: GenerateKey -/

/-- A key type outside the four of the enumeration is rejected. -/
theorem GenerateKey_unsupported (lib : Lib) (d : DiskKeyManager) (env : KeyGenEnv)
    (h : d.Typ ≠ EC_P256 ∧ d.Typ ≠ EC_P384 ∧ d.Typ ≠ RSA_2048 ∧ d.Typ ≠ RSA_4096) :
    GenerateKey lib d env = .error "KeyType must be specified" := by
  unfold GenerateKey
  simp [h.1, h.2.1, h.2.2.1, h.2.2.2]

/-- With an elliptic-curve key type a successful random generation yields a pair. -/
theorem GenerateKey_ec (lib : Lib) (d : DiskKeyManager) (now : Int) (raw : RawKey)
    (h : d.Typ = EC_P256 ∨ d.Typ = EC_P384) :
    GenerateKey lib d ⟨now, .ok raw⟩ =
      .ok ⟨lib.ripemd160Hex raw.pubDER, raw.privDER, raw.pubDER, now,
        now + d.RotationPeriod⟩ := by
  unfold GenerateKey
  simp [h, MarshalECPrivateKey, MarshalPKIXPublicKey, finishKeyPair, timeAdd]

/-- C6, where the code departs from it.  With key type RSA_2048 or RSA_4096 `GenerateKey`
returns an error although the random key generation succeeded: the RSA public key reaches
`x509.MarshalPKIXPublicKey` by value, which that function does not accept. -/
theorem C6_rsa_generation_fails (lib : Lib) (p : String) (rp iv now : Int) (raw : RawKey) :
    GenerateKey lib (NewDiskKeyManager RSA_2048 p rp iv) ⟨now, .ok raw⟩
        = .error "x509: unsupported public key type: rsa.PublicKey" ∧
      GenerateKey lib (NewDiskKeyManager RSA_4096 p rp iv) ⟨now, .ok raw⟩
        = .error "x509: unsupported public key type: rsa.PublicKey" :=
  ⟨rfl, rfl⟩

/-! ## C7: GetPublicKeys -/

/-- The stored pairs are the pairs held in populated slots. -/
theorem mem_ringValues {d : DiskKeyManager} {kp : KeyPair} :
    kp ∈ ringValues d ↔ ∃ k, slot d k = some kp := by
  unfold ringValues slot
  cases d.KeyPairs with
  | none => simp
  | some m =>
    simp only [List.mem_map]
    constructor
    · rintro ⟨⟨k, v⟩, he, rfl⟩
      exact ⟨k, AList.mem_lookup_iff.mpr he⟩
    · rintro ⟨k, hk⟩
      exact ⟨⟨k, kp⟩, AList.mem_lookup_iff.mp hk, rfl⟩

theorem GetPublicKeysLoop_ok (lib : Lib) :
    ∀ (visit : List KeyPair) (acc : PublicKeyMap),
      (∀ kp, kp ∈ visit → ∃ pub, lib.ParsePKIXPublicKey kp.PublicKeyDER = .ok pub) →
      ∃ m, GetPublicKeysLoop lib visit acc = .ok m ∧
        ∀ id, id ∈ m ↔ id ∈ acc ∨ ∃ kp, kp ∈ visit ∧ kp.ID = id := by
  intro visit
  induction visit with
  | nil =>
    intro acc _
    exact ⟨acc, rfl, fun id => by simp⟩
  | cons kp rest ih =>
    intro acc hall
    obtain ⟨pub, hpub⟩ := hall kp (List.mem_cons_self _ _)
    obtain ⟨m, hm, hkeys⟩ := ih (acc.insert kp.ID pub)
      (fun kp1 h1 => hall kp1 (List.mem_cons_of_mem _ h1))
    refine ⟨m, by simp only [GetPublicKeysLoop, hpub]; exact hm, fun id => ?_⟩
    rw [hkeys id, AList.mem_insert]
    constructor
    · rintro ((rfl | h) | ⟨kp1, h1, rfl⟩)
      · exact Or.inr ⟨kp, List.mem_cons_self _ _, rfl⟩
      · exact Or.inl h
      · exact Or.inr ⟨kp1, List.mem_cons_of_mem _ h1, rfl⟩
    · rintro (h | ⟨kp1, h1, rfl⟩)
      · exact Or.inl (Or.inr h)
      · rcases List.mem_cons.mp h1 with rfl | h2
        · exact Or.inl (Or.inl rfl)
        · exact Or.inr ⟨kp1, h2, rfl⟩

theorem GetPublicKeysLoop_error (lib : Lib) :
    ∀ (visit : List KeyPair) (acc : PublicKeyMap),
      (∃ kp, kp ∈ visit ∧ ∃ e, lib.ParsePKIXPublicKey kp.PublicKeyDER = .error e) →
      ∃ e, GetPublicKeysLoop lib visit acc = .error e := by
  intro visit
  induction visit with
  | nil =>
    rintro acc ⟨kp, h, -⟩
    exact absurd h (List.not_mem_nil _)
  | cons kp rest ih =>
    rintro acc ⟨kp1, h1, e, he⟩
    cases hp : lib.ParsePKIXPublicKey kp.PublicKeyDER with
    | error e1 => exact ⟨e1, by simp only [GetPublicKeysLoop, hp]⟩
    | ok pub =>
      rcases List.mem_cons.mp h1 with rfl | h2
      · rw [hp] at he
        exact absurd he (by simp)
      · obtain ⟨e2, h2⟩ := ih (acc.insert kp.ID pub) ⟨kp1, h2, e, he⟩
        exact ⟨e2, by simp only [GetPublicKeysLoop, hp]; exact h2⟩

/-- Every pair the loop of `GetPublicKeys` visited has its id in the returned mapping. -/
theorem GetPublicKeysLoop_mem {lib : Lib} {visit : List KeyPair} {m : PublicKeyMap}
    (h : GetPublicKeysLoop lib visit ∅ = .ok m) {kp : KeyPair} (hk : kp ∈ visit) :
    kp.ID ∈ m := by
  by_cases hall : ∀ kp1, kp1 ∈ visit → ∃ pub, lib.ParsePKIXPublicKey kp1.PublicKeyDER = .ok pub
  · obtain ⟨m1, hm1, hkeys⟩ := GetPublicKeysLoop_ok lib visit ∅ hall
    rw [h] at hm1
    injection hm1 with hm1
    subst hm1
    exact (hkeys kp.ID).mpr (Or.inr ⟨kp, hk, rfl⟩)
  · push_neg at hall
    obtain ⟨kp1, hk1, hno⟩ := hall
    have : ∃ e, lib.ParsePKIXPublicKey kp1.PublicKeyDER = .error e := by
      cases hp : lib.ParsePKIXPublicKey kp1.PublicKeyDER with
      | error e => exact ⟨e, rfl⟩
      | ok pub => exact absurd hp (hno pub)
    obtain ⟨e, he⟩ := GetPublicKeysLoop_error lib visit ∅ ⟨kp1, hk1, this⟩
    rw [h] at he
    exact absurd he (by simp)

/-- With a supported key type `GetPrivateKey` returns the id of the pair in the current
slot. -/
theorem GetPrivateKey_id (lib : Lib) {d : DiskKeyManager} {kc : KeyPair}
    (hkc : slot d d.current = some kc)
    (ht : d.Typ = EC_P256 ∨ d.Typ = EC_P384 ∨ d.Typ = RSA_2048 ∨ d.Typ = RSA_4096) :
    (GetPrivateKey lib d).1 = kc.ID := by
  unfold GetPrivateKey
  rw [getKeyPair_of_slot hkc]
  by_cases h1 : d.Typ = EC_P256 ∨ d.Typ = EC_P384
  · simp [h1]
  · have h2 : d.Typ = RSA_2048 ∨ d.Typ = RSA_4096 := by
      rcases ht with h | h | h | h
      · exact absurd (Or.inl h) h1
      · exact absurd (Or.inr h) h1
      · exact Or.inl h
      · exact Or.inr h
    simp [h1, h2]

/-- C7, as the code has it.  Whatever order the map iteration takes: if every stored public
key decodes, `GetPublicKeys` returns a mapping whose key set is exactly the set of ids of the
pairs held in populated slots; that mapping is not empty in any world reached from a
bootstrap; it contains the id that `GetPrivateKey` returns whenever the current slot is
populated and the key type is one of the four, as is the case in every world reachable from a
bootstrap by iterations whose clock readings are close.  If some stored public key fails to
decode, `GetPublicKeys` returns an error and no mapping. -/
theorem C7_public_keys (lib : Lib) (d : DiskKeyManager) (order : List KeyPair → List KeyPair)
    (hv : (order (ringValues d)).Perm (ringValues d)) :
    ((∀ k kp, slot d k = some kp → ∃ pub, lib.ParsePKIXPublicKey kp.PublicKeyDER = .ok pub) →
      ∃ m, GetPublicKeys lib d order = .ok m ∧
        (∀ id, id ∈ m ↔ ∃ k kp, slot d k = some kp ∧ kp.ID = id) ∧
        ((∃ file, BootStarted lib ⟨d, file⟩) → ∃ id, id ∈ m) ∧
        (∀ kc, slot d d.current = some kc →
          (d.Typ = EC_P256 ∨ d.Typ = EC_P384 ∨ d.Typ = RSA_2048 ∨ d.Typ = RSA_4096) →
          (GetPrivateKey lib d).1 = kc.ID ∧ (GetPrivateKey lib d).1 ∈ m) ∧
        ((∃ file, BootReachable lib ⟨d, file⟩) → (GetPrivateKey lib d).1 ∈ m)) ∧
    ((∃ k kp e, slot d k = some kp ∧ lib.ParsePKIXPublicKey kp.PublicKeyDER = .error e) →
      ∃ e, GetPublicKeys lib d order = .error e) := by
  constructor
  · intro hall
    obtain ⟨m, hm, hkeys⟩ := GetPublicKeysLoop_ok lib (order (ringValues d)) ∅ (fun kp hkp => by
      obtain ⟨k, hk⟩ := mem_ringValues.mp (hv.mem_iff.mp hkp)
      exact hall k kp hk)
    have hkeys1 : ∀ id, id ∈ m ↔ ∃ k kp, slot d k = some kp ∧ kp.ID = id := by
      intro id
      rw [hkeys id]
      constructor
      · rintro (h | ⟨kp, hkp, rfl⟩)
        · exact absurd h (AList.not_mem_empty id)
        · obtain ⟨k, hk⟩ := mem_ringValues.mp (hv.mem_iff.mp hkp)
          exact ⟨k, kp, hk, rfl⟩
      · rintro ⟨k, kp, hk, rfl⟩
        exact Or.inr ⟨kp, hv.mem_iff.mpr (mem_ringValues.mpr ⟨k, hk⟩), rfl⟩
    have hcur : ∀ kc, slot d d.current = some kc →
        (d.Typ = EC_P256 ∨ d.Typ = EC_P384 ∨ d.Typ = RSA_2048 ∨ d.Typ = RSA_4096) →
        (GetPrivateKey lib d).1 = kc.ID ∧ (GetPrivateKey lib d).1 ∈ m := by
      intro kc hkc ht
      have hid := GetPrivateKey_id lib hkc ht
      refine ⟨hid, ?_⟩
      rw [hid, hkeys1]
      exact ⟨d.current, kc, hkc, rfl⟩
    refine ⟨m, hm, hkeys1, ?_, hcur, ?_⟩
    · rintro ⟨file, hr⟩
      obtain ⟨ka, hka⟩ := bootStarted_slotA hr
      exact ⟨ka.ID, (hkeys1 _).mpr ⟨KeyAKey, ka, hka, rfl⟩⟩
    · rintro ⟨file, hr⟩
      have hI := bootInv_reachable hr
      obtain ⟨kc, hkc, -⟩ := hI.cur
      have ht : d.Typ = EC_P256 ∨ d.Typ = EC_P384 ∨ d.Typ = RSA_2048 ∨ d.Typ = RSA_4096 := by
        rcases hI.typ with h | h
        · exact Or.inl h
        · exact Or.inr (Or.inl h)
      exact (hcur kc hkc ht).2
  · rintro ⟨k, kp, e, hk, he⟩
    exact GetPublicKeysLoop_error lib (order (ringValues d)) ∅
      ⟨kp, hv.mem_iff.mpr (mem_ringValues.mpr ⟨k, hk⟩), e, he⟩

/-- C7 at the sample ring after the iteration that prepared slot B, with the map iteration
visiting slot A before slot B: the mapping holds the ids of both stored pairs. -/
theorem C7_public_keys_witness :
    (List.reverse (ringValues preparedWorld.d)).Perm (ringValues preparedWorld.d) ∧
      GetPublicKeys sampleLib preparedWorld.d List.reverse
        = .ok (AList.insert "4" (⟨[4]⟩ : CryptoKey) (AList.insert "2" (⟨[2]⟩ : CryptoKey) ∅)) ∧
      ((∀ k kp, slot preparedWorld.d k = some kp →
          ∃ pub, sampleLib.ParsePKIXPublicKey kp.PublicKeyDER = .ok pub) →
        ∃ m, GetPublicKeys sampleLib preparedWorld.d List.reverse = .ok m ∧
          (∀ id, id ∈ m ↔ ∃ k kp, slot preparedWorld.d k = some kp ∧ kp.ID = id) ∧
          ((∃ file, BootStarted sampleLib ⟨preparedWorld.d, file⟩) → ∃ id, id ∈ m) ∧
          (∀ kc, slot preparedWorld.d preparedWorld.d.current = some kc →
            (preparedWorld.d.Typ = EC_P256 ∨ preparedWorld.d.Typ = EC_P384 ∨
              preparedWorld.d.Typ = RSA_2048 ∨ preparedWorld.d.Typ = RSA_4096) →
            (GetPrivateKey sampleLib preparedWorld.d).1 = kc.ID ∧
              (GetPrivateKey sampleLib preparedWorld.d).1 ∈ m) ∧
          ((∃ file, BootReachable sampleLib ⟨preparedWorld.d, file⟩) →
            (GetPrivateKey sampleLib preparedWorld.d).1 ∈ m)) :=
  ⟨List.reverse_perm _, rfl,
    (C7_public_keys sampleLib preparedWorld.d List.reverse (List.reverse_perm _)).1⟩

/-- C7 as stated fails in the world after the sample bootstrap and the iteration that reads
the clock 1 s after the bootstrap in `shouldPrepareNewKey` and 5.5 s after it in
`shouldRotateKey`: every stored public key decodes and `GetPublicKeys` returns the mapping
with the one id "2", while `GetPrivateKey` returns the empty id, which the mapping does not
contain. -/
theorem C7_counterexample :
    BootStarted sampleLib splitWorld ∧
      GetPublicKeys sampleLib splitWorld.d id = .ok (AList.insert "2" (⟨[2]⟩ : CryptoKey) ∅) ∧
      (GetPrivateKey sampleLib splitWorld.d).1 = "" ∧
      "" ∉ (AList.insert "2" (⟨[2]⟩ : CryptoKey) ∅ : PublicKeyMap) :=
  ⟨splitWorld_started, rfl, rfl, by
    rw [AList.mem_insert]
    rintro (h | h)
    · exact absurd h (by decide)
    · exact AList.not_mem_empty _ h⟩

/-! ## What one iteration does to a bootstrapped ring -/

theorem rotateStep_of_rotate {w : World} {c : String} {env : TickEnv}
    (hr : shouldRotateKey w.d env.nowRotate = true) :
    rotateStep w c env =
      (WriteEntry { w with d := { w.d with current := w.d.next, next := c } }
        env.writeRotate).2 := by
  unfold rotateStep
  simp [hr]

theorem rotateStep_of_not_rotate {w : World} {c : String} {env : TickEnv}
    (hr : shouldRotateKey w.d env.nowRotate = false) : rotateStep w c env = w := by
  unfold rotateStep
  simp [hr]

theorem getKeyPair_congr {d d1 : DiskKeyManager} (h : d1.KeyPairs = d.KeyPairs) (k : String) :
    getKeyPair d1 k = getKeyPair d k := by
  unfold getKeyPair slot
  rw [h]

theorem slot_congr {d d1 : DiskKeyManager} (h : d1.KeyPairs = d.KeyPairs) (k : String) :
    slot d1 k = slot d k := by
  unfold slot
  rw [h]

/-- An iteration with close clock readings on a bootstrapped ring either keeps the
designators, storing at most the pair it generated in the next slot, or exchanges them; after
an exchange the current pair is newer than the next one, and it is either the pair the next
slot held before the iteration (prepare did not fire) or the pair generated on this iteration
(prepare fired). -/
theorem bootInv_tick_effect {lib : Lib} {w w1 : World} {env : TickEnv} (hI : BootInv lib w.d)
    (hcl : ReadingsClose w.d env) (ht : rotateTick lib w env = some w1) :
    (w1.d.current = w.d.current ∧ w1.d.next = w.d.next) ∨
    (w1.d.current = w.d.next ∧ w1.d.next = w.d.current ∧
      (getKeyPair w1.d w1.d.next).IssueAt < (getKeyPair w1.d w1.d.current).IssueAt ∧
      (env.writeRotate = .ok → w1.file = .ring w1.d.KeyPairs) ∧
      ((shouldPrepareNewKey w.d env.nowPrepare = false ∧ w1.d.KeyPairs = w.d.KeyPairs ∧
          ∃ kn, slot w.d w.d.next = some kn) ∨
        (shouldPrepareNewKey w.d env.nowPrepare = true ∧
          ∃ newKey m, GenerateKey lib w.d env.keygen = .ok newKey ∧
            w.d.KeyPairs = some m ∧
            w1.d.KeyPairs = some (m.insert w.d.next newKey)))) := by
  rcases rotateTick_cases ht with ⟨hp, h1⟩ | ⟨-, -, h1⟩ | ⟨hp, newKey, m, hg, hm, h1⟩
  · cases hr : shouldRotateKey w.d env.nowRotate with
    | false =>
      rw [rotateStep_of_not_rotate hr] at h1
      rw [h1]; exact Or.inl ⟨rfl, rfl⟩
    | true =>
      obtain ⟨kn, hkn, hlt⟩ := bootInv_next_of_rotate hI hcl.2 hp hr
      rw [rotateStep_of_rotate hr] at h1
      have hd : w1.d = { w.d with current := w.d.next, next := w.d.current } := by
        rw [h1, WriteEntry_d]
      right
      refine ⟨by rw [hd], by rw [hd], ?_, ?_, Or.inl ⟨hp, by rw [hd], kn, hkn⟩⟩
      · rw [hd]
        show (getKeyPair w.d w.d.current).IssueAt < (getKeyPair w.d w.d.next).IssueAt
        rw [getKeyPair_of_slot hkn]
        exact hlt
      · intro hw
        rw [h1, hw]
        rfl
  · rw [h1]; exact Or.inl ⟨rfl, rfl⟩
  · obtain ⟨hI1, hlt⟩ := bootInv_store hI hm hp hcl.1 hg
    have hne := current_ne_next hI.excl
    obtain ⟨kc, hkc, -⟩ := hI.cur
    have e1 : m.lookup w.d.current = some kc := by simpa [slot, hm] using hkc
    have hw1d := WriteEntry_d
      { w with d := { w.d with KeyPairs := some (m.insert w.d.next newKey) } } env.writePrepare
    cases hr : shouldRotateKey
        (WriteEntry { w with d := { w.d with KeyPairs := some (m.insert w.d.next newKey) } }
          env.writePrepare).2.d env.nowRotate with
    | false =>
      rw [rotateStep_of_not_rotate hr] at h1
      rw [h1, hw1d]
      exact Or.inl ⟨rfl, rfl⟩
    | true =>
      rw [rotateStep_of_rotate hr] at h1
      have hd : w1.d = { w.d with
          KeyPairs := some (m.insert w.d.next newKey)
          current := w.d.next
          next := w.d.current } := by
        rw [h1, WriteEntry_d, hw1d]
      right
      refine ⟨by rw [hd], by rw [hd], ?_, ?_, Or.inr ⟨hp, newKey, m, hg, hm, by rw [hd]⟩⟩
      · rw [hd]
        show (getKeyPair _ w.d.current).IssueAt < (getKeyPair _ w.d.next).IssueAt
        have c1 : slot ({ w.d with
            KeyPairs := some (m.insert w.d.next newKey)
            current := w.d.next
            next := w.d.current } : DiskKeyManager) w.d.current = some kc := by
          simp [slot, AList.lookup_insert_ne hne, e1]
        have c2 : slot ({ w.d with
            KeyPairs := some (m.insert w.d.next newKey)
            current := w.d.next
            next := w.d.current } : DiskKeyManager) w.d.next = some newKey := by
          simp [slot, AList.lookup_insert]
        rw [getKeyPair_of_slot c1, getKeyPair_of_slot c2]
        rw [getKeyPair_of_slot hkc] at hlt
        exact hlt
      · intro hw
        rw [h1, hw]
        rfl

/-! ## C8: the successor and its publication -/

/-- C8, as the code has it.  For every world reachable from a bootstrap by iterations whose
clock readings are close, and every such iteration on which the designators change, they are
exchanged, and: if prepare did not fire on that iteration, the pair that becomes current was
stored in the next slot before the iteration began, so any earlier successful `GetPublicKeys`
returned its id; if prepare fired on that iteration, the pair that becomes current is the pair
generated on that same iteration. -/
theorem C8_successor_published (lib : Lib) (w : World) (h : BootReachable lib w)
    (env : TickEnv) (hcl : ReadingsClose w.d env) (w1 : World)
    (ht : rotateTick lib w env = some w1) (hswap : w1.d.current ≠ w.d.current) :
    w1.d.current = w.d.next ∧ w1.d.next = w.d.current ∧
    (shouldPrepareNewKey w.d env.nowPrepare = false →
      ∃ kn, slot w.d w.d.next = some kn ∧ slot w1.d w1.d.current = some kn ∧
        ∀ order m, (order (ringValues w.d)).Perm (ringValues w.d) →
          GetPublicKeys lib w.d order = .ok m → kn.ID ∈ m) ∧
    (shouldPrepareNewKey w.d env.nowPrepare = true →
      ∃ newKey, GenerateKey lib w.d env.keygen = .ok newKey ∧
        slot w1.d w1.d.current = some newKey) := by
  have hI := bootInv_reachable h
  rcases bootInv_tick_effect hI hcl ht with ⟨hc, -⟩ | ⟨hc, hn, -, -, hcase⟩
  · exact absurd hc hswap
  · refine ⟨hc, hn, ?_, ?_⟩
    · intro hp
      rcases hcase with ⟨-, hk, kn, hkn⟩ | ⟨hp1, -⟩
      · refine ⟨kn, hkn, by rw [hc, slot_congr hk]; exact hkn, fun order m hv hm => ?_⟩
        exact GetPublicKeysLoop_mem hm (hv.mem_iff.mpr (mem_ringValues.mpr ⟨_, hkn⟩))
      · rw [hp] at hp1
        exact absurd hp1 (by simp)
    · intro hp
      rcases hcase with ⟨hp1, -⟩ | ⟨-, newKey, m, hg, -, hk⟩
      · rw [hp] at hp1
        exact absurd hp1 (by simp)
      · refine ⟨newKey, hg, ?_⟩
        rw [hc]
        unfold slot
        rw [hk]
        exact AList.lookup_insert _

theorem rotatedWorld_current_ne : rotatedWorld.d.current ≠ preparedWorld.d.current := by
  rw [show rotatedWorld.d.current = KeyBKey from rfl,
    show preparedWorld.d.current = KeyAKey from rfl]
  exact fun e => keyA_ne_keyB e.symm

/-- C8 at the sample ring: slot B was prepared 3.000000001 s after the bootstrap and the
iteration at 5.000000001 s exchanges the designators without preparing. -/
theorem C8_successor_published_witness :
    BootReachable sampleLib preparedWorld ∧
      ReadingsClose preparedWorld.d (tickAt 1005000000001 (.error "entropy") .ok .ok) ∧
      rotateTick sampleLib preparedWorld (tickAt 1005000000001 (.error "entropy") .ok .ok)
        = some rotatedWorld ∧
      rotatedWorld.d.current ≠ preparedWorld.d.current ∧
      shouldPrepareNewKey preparedWorld.d 1005000000001 = false ∧
      ∃ kn, slot preparedWorld.d preparedWorld.d.next = some kn ∧
        slot rotatedWorld.d rotatedWorld.d.current = some kn ∧
        ∀ order m, (order (ringValues preparedWorld.d)).Perm (ringValues preparedWorld.d) →
          GetPublicKeys sampleLib preparedWorld.d order = .ok m → kn.ID ∈ m :=
  ⟨preparedWorld_reachable, by decide, rfl, rotatedWorld_current_ne, rfl,
    (C8_successor_published sampleLib preparedWorld preparedWorld_reachable
      (tickAt 1005000000001 (.error "entropy") .ok .ok) (by decide) rotatedWorld rfl
      rotatedWorld_current_ne).2.2.1 rfl⟩

/-- C8 as stated fails on the bootstrapped sample ring (rotation period 6 s), whose next
slot is empty.  On the iteration 5.000000001 s after the bootstrap prepare and rotate both
fire, and the pair that becomes current is the one `GenerateKey` made on this iteration.  On
the iteration that reads the clock 1 s after the bootstrap in `shouldPrepareNewKey` and 5.5 s
after it in `shouldRotateKey`, prepare does not fire, the designators are exchanged and the
slot that becomes current holds no pair at all. -/
theorem C8_counterexample :
    BootReachable sampleLib bootWorld ∧ bootWorld.d.current = KeyAKey ∧
      slot bootWorld.d bootWorld.d.next = none ∧
      (GenerateKey sampleLib bootWorld.d ⟨1005000000001, .ok rawKey1⟩ = .ok lateKey ∧
        (rotateTick sampleLib bootWorld (tickAt 1005000000001 (.ok rawKey1) .ok .ok)).map
          (fun w1 => (w1.d.current, slot w1.d w1.d.current))
            = some (KeyBKey, some lateKey)) ∧
      (shouldPrepareNewKey bootWorld.d splitEnv.nowPrepare = false ∧
        (rotateTick sampleLib bootWorld splitEnv).map
          (fun w1 => (w1.d.current, slot w1.d w1.d.current)) = some (KeyBKey, none)) :=
  ⟨bootWorld_reachable, rfl, by decide, ⟨rfl, by decide⟩, ⟨rfl, by decide⟩⟩

/-! ## C10: restart -/

theorem restart_ring (lib : Lib) (d0 : DiskKeyManager) (env : InitEnv)
    (data : Option KeyPairMap) :
    (restart lib d0 env (.ring data)).err = none ∧
      (restart lib d0 env (.ring data)).w.d = loadDesignators { d0 with KeyPairs := data } := by
  unfold restart
  rw [Initialize_ring (w := ⟨d0, .ring data⟩) rfl]
  exact ⟨rfl, rfl⟩

/-- What a reload makes of the ring of an invariant state: the same designators when the
current pair is not older than the next one, the exchanged designators otherwise. -/
theorem bootInv_reload {lib : Lib} {d : DiskKeyManager} (hI : BootInv lib d)
    (d0 : DiskKeyManager) :
    (¬ (getKeyPair d d.current).IssueAt < (getKeyPair d d.next).IssueAt →
      (loadDesignators { d0 with KeyPairs := d.KeyPairs }).current = d.current ∧
        (loadDesignators { d0 with KeyPairs := d.KeyPairs }).next = d.next) ∧
    ((getKeyPair d d.current).IssueAt < (getKeyPair d d.next).IssueAt →
      (loadDesignators { d0 with KeyPairs := d.KeyPairs }).current = d.next ∧
        (loadDesignators { d0 with KeyPairs := d.KeyPairs }).next = d.current) := by
  have hA : getKeyPair { d0 with KeyPairs := d.KeyPairs } KeyAKey = getKeyPair d KeyAKey :=
    getKeyPair_congr rfl _
  have hB : getKeyPair { d0 with KeyPairs := d.KeyPairs } KeyBKey = getKeyPair d KeyBKey :=
    getKeyPair_congr rfl _
  have hload : ∀ b : Bool,
      timeBefore (getKeyPair d KeyAKey).IssueAt (getKeyPair d KeyBKey).IssueAt = b →
      (loadDesignators { d0 with KeyPairs := d.KeyPairs }).current
          = (if b then KeyBKey else KeyAKey) ∧
        (loadDesignators { d0 with KeyPairs := d.KeyPairs }).next
          = (if b then KeyAKey else KeyBKey) := by
    intro b hb
    unfold loadDesignators
    rw [hA, hB, hb]
    cases b <;> exact ⟨rfl, rfl⟩
  rcases hI.excl with ⟨hc, hn⟩ | ⟨hc, hn⟩
  · rw [hc, hn]
    constructor
    · intro hlt
      exact hload false (by simpa [timeBefore] using hlt)
    · intro hlt
      exact hload true (by simpa [timeBefore] using hlt)
  · obtain ⟨ka, hka⟩ := hI.slotA
    have hne := (hI.nxt ka (by rw [hn]; exact hka)).2
    rw [hc] at hne
    rw [hc, hn, getKeyPair_of_slot hka]
    constructor
    · intro hlt
      exact hload true (by
        rw [getKeyPair_of_slot hka]
        simp only [timeBefore, decide_eq_true_eq]
        omega)
    · intro hlt
      exact hload false (by
        rw [getKeyPair_of_slot hka]
        simp only [timeBefore, decide_eq_false_iff_not]
        omega)

theorem prepareStep_stored_eq {lib : Lib} {w w1 : World} {env : TickEnv}
    (h : prepareStep lib w env = .stored w1) :
    ∃ newKey m, shouldPrepareNewKey w.d env.nowPrepare = true ∧
      GenerateKey lib w.d env.keygen = .ok newKey ∧ w.d.KeyPairs = some m ∧
      w1 = (WriteEntry { w with d := { w.d with KeyPairs := some (m.insert w.d.next newKey) } }
        env.writePrepare).2 := by
  unfold prepareStep at h
  split at h
  · rename_i hp
    split at h
    · exact absurd h (by simp)
    · rename_i newKey hg
      split at h
      · exact absurd h (by simp)
      · rename_i m hm
        injection h with h
        exact ⟨newKey, m, hp, hg, hm, h.symm⟩
  · exact absurd h (by simp)

/-- C10, as the code has it.  For every world reachable from a bootstrap by iterations
whose clock readings are close, with its ring persisted by `WriteEntry`, a restart loads the
ring and recomputes the in-memory designators exactly when the current pair's issuedAt is not
before the next pair's (an empty next slot reading as the zero time), and recomputes them
exchanged otherwise.  So the write that follows a prepare reloads with the designators
exchanged, and the write that follows an exchange of the designators, on an iteration whose
clock readings are close, reloads with the designators as they are in memory. -/
theorem C10_restart (lib : Lib) (w : World) (h : BootReachable lib w) (d0 : DiskKeyManager)
    (ienv : InitEnv) :
    (restart lib d0 ienv (WriteEntry w .ok).2.file).err = none ∧
    (((restart lib d0 ienv (WriteEntry w .ok).2.file).w.d.current = w.d.current ∧
        (restart lib d0 ienv (WriteEntry w .ok).2.file).w.d.next = w.d.next) ↔
      ¬ (getKeyPair w.d w.d.current).IssueAt < (getKeyPair w.d w.d.next).IssueAt) ∧
    ((getKeyPair w.d w.d.current).IssueAt < (getKeyPair w.d w.d.next).IssueAt →
      (restart lib d0 ienv (WriteEntry w .ok).2.file).w.d.current = w.d.next ∧
        (restart lib d0 ienv (WriteEntry w .ok).2.file).w.d.next = w.d.current) ∧
    (∀ env w1, env.nowPrepare ≤ env.keygen.now → env.writePrepare = .ok →
      prepareStep lib w env = .stored w1 →
      w1.file = .ring w1.d.KeyPairs ∧
        (restart lib d0 ienv w1.file).w.d.current = w1.d.next ∧
        (restart lib d0 ienv w1.file).w.d.next = w1.d.current) ∧
    (∀ env w1, ReadingsClose w.d env → env.writeRotate = .ok →
      rotateTick lib w env = some w1 → w1.d.current ≠ w.d.current →
      w1.file = .ring w1.d.KeyPairs ∧
        (restart lib d0 ienv w1.file).w.d.current = w1.d.current ∧
        (restart lib d0 ienv w1.file).w.d.next = w1.d.next) := by
  have hI := bootInv_reachable h
  have hfile : (WriteEntry w .ok).2.file = .ring w.d.KeyPairs := rfl
  obtain ⟨herr, hd⟩ := restart_ring lib d0 ienv w.d.KeyPairs
  obtain ⟨hsame, hswap⟩ := bootInv_reload hI d0
  refine ⟨by rw [hfile]; exact herr, ?_, ?_, ?_, ?_⟩
  · rw [hfile, hd]
    constructor
    · rintro ⟨hc, -⟩ hlt
      have := (hswap hlt).1
      rw [hc] at this
      exact current_ne_next hI.excl this
    · exact hsame
  · rw [hfile, hd]
    exact hswap
  · intro env w1 hle hwr hs
    obtain ⟨newKey, m, hp, hg, hm, hw1⟩ := prepareStep_stored_eq hs
    obtain ⟨hI1, hlt⟩ := bootInv_store hI hm hp hle hg
    have hw1d : w1.d = { w.d with KeyPairs := some (m.insert w.d.next newKey) } := by
      rw [hw1, WriteEntry_d]
    have hw1f : w1.file = .ring w1.d.KeyPairs := by
      rw [hw1, hwr]; rfl
    obtain ⟨r1, r2⟩ := store_reads newKey hm (current_ne_next hI.excl)
    obtain ⟨-, hd1⟩ := restart_ring lib d0 ienv w1.d.KeyPairs
    refine ⟨hw1f, ?_⟩
    rw [hw1f, hd1, hw1d]
    exact (bootInv_reload hI1 d0).2 (by
      show (getKeyPair _ w.d.current).IssueAt < (getKeyPair _ w.d.next).IssueAt
      rw [r1, r2]; exact hlt)
  · intro env w1 hcl hwr ht hne
    rcases bootInv_tick_effect hI hcl ht with ⟨hc, -⟩ | ⟨-, -, hlt, hf, -⟩
    · exact absurd hc hne
    · have hI1 := bootInv_tick hI hcl ht
      have hw1f := hf hwr
      obtain ⟨-, hd1⟩ := restart_ring lib d0 ienv w1.d.KeyPairs
      refine ⟨hw1f, ?_⟩
      rw [hw1f, hd1]
      exact (bootInv_reload hI1 d0).1 (by omega)

/-- C10 at the sample ring after the exchange of the designators: the current pair is the
newer one and a restart recomputes the designators held in memory. -/
theorem C10_restart_witness :
    BootReachable sampleLib rotatedWorld ∧
      (restart sampleLib freshWorld.d bootEnv (WriteEntry rotatedWorld .ok).2.file).w.d.current
        = rotatedWorld.d.current ∧
      (restart sampleLib freshWorld.d bootEnv (WriteEntry rotatedWorld .ok).2.file).w.d.next
        = rotatedWorld.d.next :=
  ⟨BootReachable.tick preparedWorld rotatedWorld
      (tickAt 1005000000001 (.error "entropy") .ok .ok) preparedWorld_reachable
      (by decide) rfl,
    (C10_restart sampleLib rotatedWorld
      (BootReachable.tick preparedWorld rotatedWorld
        (tickAt 1005000000001 (.error "entropy") .ok .ok) preparedWorld_reachable
        (by decide) rfl) freshWorld.d bootEnv).2.1.mpr (by decide)⟩

/-- C10 as stated fails.  On the sample ring after the iteration that prepared slot B the
file holds the ring that `WriteEntry` persisted, current is Key-A in memory, and a restart
makes Key-B current.  On the sample ring after the iteration that reads the clock 1 s after
the bootstrap in `shouldPrepareNewKey` and 5.5 s after it in `shouldRotateKey`, the file holds
the ring persisted after the exchange of the designators, current is Key-B in memory, and a
restart makes Key-A current. -/
theorem C10_counterexample :
    (BootReachable sampleLib preparedWorld ∧
      preparedWorld.file = .ring preparedWorld.d.KeyPairs ∧
      preparedWorld.d.current = KeyAKey ∧
      (restart sampleLib freshWorld.d bootEnv preparedWorld.file).w.d.current = KeyBKey) ∧
    (BootStarted sampleLib splitWorld ∧
      splitWorld.file = .ring splitWorld.d.KeyPairs ∧
      splitWorld.d.current = KeyBKey ∧
      (restart sampleLib freshWorld.d bootEnv splitWorld.file).w.d.current = KeyAKey) :=
  ⟨⟨preparedWorld_reachable, rfl, rfl, rfl⟩, ⟨splitWorld_started, rfl, rfl, rfl⟩⟩

/-! ## C9: lock discipline -/

/-- C9, where the code departs from it.  `GetPrivateKey` and `GetPublicKeys` read the ring
without taking the read side of the mutex, and the rotation loop assigns to the ring without
taking the write side; only `WriteEntry` takes the mutex, around its read of the map. -/
theorem C9_readers_take_no_lock (lib : Lib) (visit : List KeyPair) :
    readsUnderReadLock ⟨false, false⟩ GetPrivateKeyAccesses = false ∧
      readsUnderReadLock ⟨false, false⟩ (GetPublicKeysAccesses lib visit) = false ∧
      writesUnderWriteLock ⟨false, false⟩
        (rotateTickAccesses sampleLib bootWorld
          (tickAt 1005000000001 (.ok rawKey1) .ok .ok)) = false ∧
      writesUnderWriteLock ⟨false, false⟩ WriteEntryAccesses = true :=
  ⟨rfl, rfl, rfl, rfl⟩

end KeyManager
